import Mathlib

/-!
# Verification of the LeafBridge deployment core

A shallow embedding, in Lean 4, of the resource-resolution, engine-state and
typed-event components of the LeafBridge deployment engine, together with
theorems checking the natural-language specification against the code.

Modelling conventions:
* Go strings are modelled by Lean `String`.
* Go `error` values are modelled by the inductive `GoError`: the sentinel
  `fs.ErrNotExist`, plain `fmt.Errorf` messages, and `fmt.Errorf` with a
  `%w` verb (wrapping).
* Go maps are modelled by association lists (`List (κ × ν)`); lookup takes
  the first matching key.  Functions that in Go return `(T, error)` return
  `Except GoError T`.
* Calls into the operating system (`windows.KnownFolderPath`) are modelled
  by an oracle function supplied as an explicit argument.
* `time.Time`, `uintptr` and `slog.Level` are modelled by `Int`.
-/

namespace LeafBridge

/-- Go `error` values as used by the deployment core: the `fs.ErrNotExist`
sentinel, plain `errors.New`/`fmt.Errorf` messages, and `fmt.Errorf`
wrapping with `%w`. -/
inductive GoError where
  | notExist : GoError
  | msg (s : String) : GoError
  | wrap (pre : String) (inner : GoError) : GoError
  deriving DecidableEq, Repr

/-- The message text of an error, as produced by `Error()`.  The sentinel
`fs.ErrNotExist` renders as "file does not exist"; a wrapping error made by
`fmt.Errorf("...: %w", err)` renders its own text followed by the text of
the wrapped error. -/
def GoError.message : GoError → String
  | .notExist => "file does not exist"
  | .msg s => s
  | .wrap pre inner => pre ++ inner.message

/-- Go `errors.Is(err, fs.ErrNotExist)`: true when the error is the sentinel or
wraps it. -/
def GoError.isNotExistSentinel : GoError → Bool
  | .notExist => true
  | .msg _ => false
  | .wrap _ inner => inner.isNotExistSentinel

/-- One string occurs inside another (`strings.Contains`); used to state
that an error message names a particular resource ID. -/
def mentions (sub s : String) : Prop := sub.data <:+: s.data

instance (sub s : String) : Decidable (mentions sub s) :=
  inferInstanceAs (Decidable (sub.data <:+: s.data))

theorem String.data_append_eq (a b : String) : (a ++ b).data = a.data ++ b.data := by
  cases a; cases b; rfl

/-- A message assembled as `pre ++ id ++ post` mentions `id`. -/
theorem mentions_of_append (pre id post : String) :
    mentions id (pre ++ id ++ post) := by
  refine ⟨pre.data, post.data, ?_⟩
  rw [String.data_append_eq, String.data_append_eq]

/-- Association-list lookup, modelling Go map indexing `m[k]`. -/
def findAL {κ ν : Type} [DecidableEq κ] (l : List (κ × ν)) (k : κ) : Option ν :=
  (l.find? (fun p => p.1 = k)).map (·.2)

/-- Association-list update, modelling Go map assignment `m[k] = v`:
replace the value at the first occurrence of the key, else append. -/
def setAL {κ ν : Type} [DecidableEq κ] (l : List (κ × ν)) (k : κ) (v : ν) :
    List (κ × ν) :=
  match l with
  | [] => [(k, v)]
  | (k', v') :: rest =>
      if k' = k then (k, v) :: rest else (k', v') :: setAL rest k v

@[simp] theorem findAL_nil {κ ν : Type} [DecidableEq κ] (k : κ) :
    findAL ([] : List (κ × ν)) k = none := rfl

@[simp] theorem findAL_cons {κ ν : Type} [DecidableEq κ] (k k' : κ) (v' : ν)
    (rest : List (κ × ν)) :
    findAL ((k', v') :: rest) k = if k' = k then some v' else findAL rest k := by
  by_cases h : k' = k <;> simp [findAL, List.find?, h]

@[simp] theorem findAL_setAL_self {κ ν : Type} [DecidableEq κ]
    (l : List (κ × ν)) (k : κ) (v : ν) : findAL (setAL l k v) k = some v := by
  induction l with
  | nil => simp [setAL]
  | cons p rest ih =>
      obtain ⟨k', v'⟩ := p
      by_cases h : k' = k
      · simp [setAL, h]
      · simp only [setAL]
        rw [if_neg h]
        simp [h, ih]

/-! ## Path handling (`path/filepath`, `io/fs`)

The resolver validates and joins path fragments through Go's
`filepath.Localize` and `filepath.Join`.  Both are modelled here for the
Windows target the code compiles for.
-/

/-- Splits a character list at every occurrence of a separator; the Go
path code iterates path elements in this way. -/
def splitChars (sep : Char) : List Char → List (List Char)
  | [] => [[]]
  | c :: rest =>
      match splitChars sep rest with
      | [] => [[c]]
      | cur :: parts =>
          if c = sep then [] :: cur :: parts else (c :: cur) :: parts

/-- Go `io/fs.ValidPath`: a slash-separated path is valid when it is "." or
all of its slash-separated elements are nonempty and none is "." or "..".
(Lean strings are always valid unicode, so the UTF-8 validity check of the
Go original is implicit.) -/
def validPath (path : String) : Bool :=
  if path = "." then true
  else (splitChars '/' path.data).all
    (fun e => !e.isEmpty && e ≠ ['.'] && e ≠ ['.', '.'])

/-- The Windows-specific character check of `filepath.Localize`: an element
may not contain a colon, a backslash or a NUL byte.  (Reserved device names
such as `NUL` or `COM1`, which the Go original also rejects, are treated as
representable here; no claim depends on them.) -/
def localizableChars (path : String) : Bool :=
  path.data.all (fun c => c ≠ ':' && c ≠ '\\' && c ≠ Char.ofNat 0)

/-- Go `filepath.Localize` on Windows: require `io/fs.ValidPath`, reject
colons, backslashes and NUL bytes, then turn slashes into backslashes. -/
def Localize (path : String) : Except GoError String :=
  if !validPath path then .error (.msg "invalid path")
  else if !localizableChars path then .error (.msg "invalid path")
  else .ok ⟨path.data.map (fun c => if c = '/' then '\\' else c)⟩

/-- Go `filepath.Join` on Windows, for arguments that are already clean: empty
parts are dropped and a lone "." element is removed by the final
`filepath.Clean`, otherwise the parts are joined with a backslash. -/
def winJoin (p q : String) : String :=
  if p = "" then q
  else if q = "" then p
  else if p = "." then q
  else if q = "." then p
  else p ++ "\\" ++ q

/-! ## File system resource graph (`core/lbdeploy/filesystem.go`) -/

/-- Go `lbdeploy.DirectoryResourceID`. -/
abbrev DirectoryResourceID := String

/-- Go `lbdeploy.DirectoryResource`: a directory definition pointing at a
parent location. -/
structure DirectoryResource where
  Location : DirectoryResourceID
  Path : String
  deriving DecidableEq, Repr

/-- Go `lbdeploy.DirectoryResourceMap`, modelled as an association list. -/
abbrev DirectoryResourceMap := List (DirectoryResourceID × DirectoryResource)

/-- Go `lbdeploy.KnownFolder`: a folder with a known, OS-resolved location. -/
structure KnownFolder where
  ID : DirectoryResourceID
  Path : String
  Protected : Bool
  deriving DecidableEq, Repr

/-- Go `lbdeploy.DirRef`: a resolved reference to a directory. -/
structure DirRef where
  Root : KnownFolder
  Lineage : List DirectoryResource
  deriving DecidableEq, Repr

/-- Go `DirRef.Path`: join the root's path with each lineage segment's
localized path in order, failing if any segment cannot be localized. -/
def DirRef.PathFn (ref : DirRef) : Except GoError String :=
  ref.Lineage.foldlM
    (fun path dir => (Localize dir.Path).map (fun localized => winJoin path localized))
    ref.Root.Path

/-- Go `lbdeploy.FileResourceID`. -/
abbrev FileResourceID := String

/-- Go `lbdeploy.FileResource`: a file definition pointing at a parent
directory location. -/
structure FileResource where
  Location : DirectoryResourceID
  Path : String
  deriving DecidableEq, Repr

/-- Go `lbdeploy.FileResourceMap`, modelled as an association list. -/
abbrev FileResourceMap := List (FileResourceID × FileResource)

/-- Go `lbdeploy.FileRef`: a resolved reference to a file. -/
structure FileRef where
  Root : KnownFolder
  Lineage : List DirectoryResource
  FileID : FileResourceID
  FilePath : String
  deriving DecidableEq, Repr

/-- Go `FileRef.Dir`: the reference to the file's directory. -/
def FileRef.Dir (ref : FileRef) : DirRef :=
  { Root := ref.Root, Lineage := ref.Lineage }

/-- Go `FileRef.Path`: the directory's path joined with the localized file
path. -/
def FileRef.PathFn (ref : FileRef) : Except GoError String := do
  let path ← ref.Dir.PathFn
  let localized ← Localize ref.FilePath
  return winJoin path localized

/-- Go `lbdeploy.FileSystemResources`. -/
structure FileSystemResources where
  Directories : DirectoryResourceMap
  Files : FileResourceMap
  deriving DecidableEq, Repr

/-! ## Registry resource graph (`core/lbdeploy`, registry part) -/

/-- Go `lbdeploy.RegistryKeyResourceID`. -/
abbrev RegistryKeyResourceID := String

/-- Go `lbdeploy.PredefinedRegistryKey`: the predefined registry hives known
to LeafBridge. -/
inductive PredefinedRegistryKey where
  | unknown : PredefinedRegistryKey
  | localMachine : PredefinedRegistryKey
  deriving DecidableEq, Repr

/-- Go `PredefinedRegistryKey.String`: the canonical hive name. -/
def PredefinedRegistryKey.StringFn : PredefinedRegistryKey → String
  | .unknown => "HKEY_UNKNOWN"
  | .localMachine => "HKEY_LOCAL_MACHINE"

/-- Go `lbdeploy.RegistryKeyResource`: a registry key definition; its name and
path fields are mutually exclusive. -/
structure RegistryKeyResource where
  Location : RegistryKeyResourceID
  Name : String
  Path : String
  deriving DecidableEq, Repr

/-- Go `lbdeploy.RegistryKeyResourceMap`, modelled as an association list. -/
abbrev RegistryKeyResourceMap := List (RegistryKeyResourceID × RegistryKeyResource)

/-- Go `lbdeploy.RegistryRoot`: a root location within the registry. -/
structure RegistryRoot where
  ID : RegistryKeyResourceID
  PredefinedKey : PredefinedRegistryKey
  Path : String
  deriving DecidableEq, Repr

/-- Go `RegistryRoot.AbsolutePath`: the hive name joined with the root's
path.  The Go original returns an error value that is always nil. -/
def RegistryRoot.AbsolutePath (root : RegistryRoot) : String :=
  if root.Path = "" then root.PredefinedKey.StringFn
  else winJoin root.PredefinedKey.StringFn root.Path

/-- Go `lbdeploy.RegistryKeyRef`: a resolved reference to a registry key. -/
structure RegistryKeyRef where
  Root : RegistryRoot
  Lineage : List RegistryKeyResource
  deriving DecidableEq, Repr

/-- Go `RegistryKeyRef.Path`: starting from the root's absolute path, append
each lineage segment: a segment with a nonempty name is appended verbatim
after a backslash; otherwise a nonempty path is localized and joined;
otherwise the segment is rejected. -/
def RegistryKeyRef.PathFn (ref : RegistryKeyRef) : Except GoError String :=
  ref.Lineage.foldlM
    (fun path key =>
      if key.Name ≠ "" then .ok (path ++ "\\" ++ key.Name)
      else if key.Path ≠ "" then (Localize key.Path).map (fun l => winJoin path l)
      else .error (.msg "a registry key resource does not specify a name or path"))
    ref.Root.AbsolutePath

/-- Go `lbdeploy.RegistryValueResourceID`. -/
abbrev RegistryValueResourceID := String

/-- Go `lbdeploy.RegistryValueResource`: a value within a registry key.  The
`lbvalue.Kind` of the value is modelled as a string. -/
structure RegistryValueResource where
  Key : RegistryKeyResourceID
  Name : String
  Type_ : String
  deriving DecidableEq, Repr

/-- Go `lbdeploy.RegistryValueResourceMap`, modelled as an association list. -/
abbrev RegistryValueResourceMap := List (RegistryValueResourceID × RegistryValueResource)

/-- Go `lbdeploy.RegistryValueRef`: a resolved reference to a registry value. -/
structure RegistryValueRef where
  Root : RegistryRoot
  Lineage : List RegistryKeyResource
  ID : RegistryValueResourceID
  Name : String
  Type_ : String
  deriving DecidableEq, Repr

/-- Go `lbdeploy.RegistryResources`. -/
structure RegistryResources where
  Keys : RegistryKeyResourceMap
  Values : RegistryValueResourceMap
  deriving DecidableEq, Repr

/-! ## Known roots (`platform/windows/localfs`, `platform/windows/localregistry`) -/

/-- The `knownFolders` table of `platform/windows/localfs`: directory
resource IDs recognized as known folders, with their protected flag.  The
Windows GUID of each entry is subsumed by the OS oracle below. -/
def knownFolders : List (DirectoryResourceID × Bool) :=
  [("common-start-menu", false),
   ("public-desktop", false),
   ("program-data", false),
   ("program-files", false),
   ("program-files-x86", false),
   ("program-files-x64", false),
   ("system", true)]

/-- The oracle standing for `windows.KnownFolderPath`: given the resource
ID of a known folder (in place of its GUID), the live path of the folder or
an operating-system error. -/
abbrev KnownFolderOracle := DirectoryResourceID → Except GoError String

/-- Go `localfs.Resolver.ResolveKnownFolder`: look up the known-folder table,
returning `fs.ErrNotExist` on a miss, then ask the operating system for the
folder's path, wrapping any failure with the folder's ID. -/
def ResolveKnownFolder (os : KnownFolderOracle) (id : DirectoryResourceID) :
    Except GoError KnownFolder :=
  match findAL knownFolders id with
  | none => .error .notExist
  | some prot =>
      match os id with
      | .ok path => .ok { ID := id, Path := path, Protected := prot }
      | .error e =>
          .error (.wrap ("the \"" ++ id ++ "\" known folder could not be resolved: ") e)

/-- Go `localregistry.PredefinedKeyHandle`: only `HKEY_LOCAL_MACHINE` is
supported; its handle is modelled as `Unit`. -/
def PredefinedKeyHandle (key : PredefinedRegistryKey) : Except GoError Unit :=
  match key with
  | .localMachine => .ok ()
  | _ =>
      .error (.msg ("the predefined registry key is unrecognized or unsupported: "
        ++ key.StringFn))

/-- The `registryRoots` table of `platform/windows/localregistry`. -/
def registryRoots : List (RegistryKeyResourceID × (PredefinedRegistryKey × String)) :=
  [("software", (.localMachine, "SOFTWARE"))]

/-- Go `localregistry.Resolver.ResolveRoot`: look up the registry-root table,
returning `fs.ErrNotExist` on a miss, then verify the predefined key is
supported, wrapping any failure with the root's ID. -/
def ResolveRoot (id : RegistryKeyResourceID) : Except GoError RegistryRoot :=
  match findAL registryRoots id with
  | none => .error .notExist
  | some root =>
      match PredefinedKeyHandle root.1 with
      | .ok _ => .ok { ID := id, PredefinedKey := root.1, Path := root.2 }
      | .error e =>
          .error (.wrap ("the \"" ++ id ++ "\" registry root could not be resolved: ") e)

/-! ## The resolution walk

`localfs.Resolver.ResolveDirectory` and `localregistry.Resolver.ResolveKey`
share the same upward walk over parent locations; it is captured once,
parametrized by the definition map, the root lookup and the error texts of
the two originals.  The Go loop runs until it returns; here it carries a
fuel counter, and the development proves that the fuel chosen by the
resolvers is never exhausted (`chainLoop_ne_none_of_fuel`).
-/

/-- A resource ID: both directory and registry key IDs are strings. -/
abbrev ResourceID := String

/-- The operations of one resolution walk: definition lookup, the parent
location of a definition, root resolution, and the error constructors for
cycles, missing locations and undefined parents (each taking the requested
ID and the offending parent ID). -/
structure ChainOps (α ρ : Type) where
  find : ResourceID → Option α
  loc : α → ResourceID
  rootFn : ResourceID → Except GoError ρ
  cycleErr : ResourceID → ResourceID → GoError
  noLocErr : ResourceID → ResourceID → GoError
  notDefErr : ResourceID → ResourceID → GoError

/-- The upward walk: check the visited set for a cycle, record the visit,
follow a defined parent's location (failing if it is empty), or stop at a
known root; an unrecognized location that is no root is undefined.  The
lineage is accumulated in leaf-to-root order, exactly as in the source;
`none` means the fuel ran out (which the chosen fuel never does). -/
def chainLoop {α ρ : Type} (ops : ChainOps α ρ) (id : ResourceID) :
    Nat → List ResourceID → List α → ResourceID →
    Option (Except GoError (ρ × List α))
  | 0, _, _, _ => none
  | fuel + 1, seen, lineage, next =>
    if next ∈ seen then some (.error (ops.cycleErr id next))
    else
      match ops.find next with
      | some parent =>
          if ops.loc parent = "" then some (.error (ops.noLocErr id next))
          else chainLoop ops id fuel (next :: seen) (lineage ++ [parent]) (ops.loc parent)
      | none =>
          match ops.rootFn next with
          | .ok root => some (.ok (root, lineage))
          | .error e =>
              if e.isNotExistSentinel then some (.error (ops.notDefErr id next))
              else some (.error e)

/-- The walk operations of `localfs.Resolver.ResolveDirectory`. -/
def dirOps (dirs : DirectoryResourceMap) (os : KnownFolderOracle) :
    ChainOps DirectoryResource KnownFolder where
  find := findAL dirs
  loc := DirectoryResource.Location
  rootFn := ResolveKnownFolder os
  cycleErr := fun id next =>
    .msg ("failed to resolve the \"" ++ id ++ "\" directory: the \"" ++ next
      ++ "\" parent directory has a cyclic reference to itself in the deployment's resources")
  noLocErr := fun id next =>
    .msg ("failed to resolve the \"" ++ id ++ "\" directory: the \"" ++ next
      ++ "\" parent directory does not have a location")
  notDefErr := fun id next =>
    .msg ("failed to resolve the \"" ++ id ++ "\" directory: the \"" ++ next
      ++ "\" parent directory is not defined in the deployment's resources")

/-- Go `localfs.Resolver.ResolveDirectory`: look up the directory definition
(falling back to the known-folder table when it is absent), require a
location, then walk the ancestry, reversing the recorded lineage into
root-to-leaf order on success. -/
def ResolveDirectory (fsys : FileSystemResources) (os : KnownFolderOracle)
    (id : DirectoryResourceID) : Except GoError DirRef :=
  match findAL fsys.Directories id with
  | none =>
      match ResolveKnownFolder os id with
      | .ok candidate => .ok { Root := candidate, Lineage := [] }
      | .error e =>
          if e.isNotExistSentinel then
            .error (.msg ("the \"" ++ id
              ++ "\" directory is not defined in the deployment's resources"))
          else .error e
  | some data =>
      if data.Location = "" then
        .error (.msg ("the \"" ++ id ++ "\" directory does not have a location"))
      else
        match chainLoop (dirOps fsys.Directories os) id
            (fsys.Directories.length + 1) [] [data] data.Location with
        | some (.ok (root, lineage)) => .ok { Root := root, Lineage := lineage.reverse }
        | some (.error e) => .error e
        | none => .error (.msg "resolver fuel exhausted")

/-- Go `localfs.Resolver.ResolveFile`: look up the file definition, require a
location, resolve it as a directory and attach the file's own path,
wrapping directory-resolution failures with the file's ID. -/
def ResolveFile (fsys : FileSystemResources) (os : KnownFolderOracle)
    (id : FileResourceID) : Except GoError FileRef :=
  match findAL fsys.Files id with
  | none =>
      .error (.msg ("the \"" ++ id ++ "\" file is not defined in the deployment's resources"))
  | some data =>
      if data.Location = "" then
        .error (.msg ("the \"" ++ id ++ "\" file does not have a location"))
      else
        match ResolveDirectory fsys os data.Location with
        | .error e => .error (.wrap ("failed to resolve the \"" ++ id ++ "\" file: ") e)
        | .ok dir =>
            .ok { Root := dir.Root, Lineage := dir.Lineage, FileID := id,
                  FilePath := data.Path }

/-- The walk operations of `localregistry.Resolver.ResolveKey`.  The
"prent key" spelling reproduces the source text. -/
def keyOps (keys : RegistryKeyResourceMap) :
    ChainOps RegistryKeyResource RegistryRoot where
  find := findAL keys
  loc := RegistryKeyResource.Location
  rootFn := ResolveRoot
  cycleErr := fun id next =>
    .msg ("failed to resolve the \"" ++ id ++ "\" registry key: the \"" ++ next
      ++ "\" parent key has a cyclic reference to itself in the deployment's registry resources")
  noLocErr := fun id next =>
    .msg ("failed to resolve the \"" ++ id ++ "\" registry key: the \"" ++ next
      ++ "\" parent key does not have a location")
  notDefErr := fun id next =>
    .msg ("failed to resolve the \"" ++ id ++ "\" registry key: the \"" ++ next
      ++ "\" prent key is not defined in the deployment's resources")

/-- Go `localregistry.Resolver.ResolveKey`: look up the key definition
(falling back to the registry-root table when it is absent), require a
location, then walk the ancestry, reversing the recorded lineage into
root-to-leaf order on success. -/
def ResolveKey (reg : RegistryResources) (key : RegistryKeyResourceID) :
    Except GoError RegistryKeyRef :=
  match findAL reg.Keys key with
  | none =>
      match ResolveRoot key with
      | .ok candidate => .ok { Root := candidate, Lineage := [] }
      | .error e =>
          if e.isNotExistSentinel then
            .error (.msg ("the \"" ++ key
              ++ "\" registry key is not defined in the deployment's resources"))
          else .error e
  | some data =>
      if data.Location = "" then
        .error (.msg ("the \"" ++ key ++ "\" registry key does not have a location"))
      else
        match chainLoop (keyOps reg.Keys) key (reg.Keys.length + 1) [] [data]
            data.Location with
        | some (.ok (root, lineage)) => .ok { Root := root, Lineage := lineage.reverse }
        | some (.error e) => .error e
        | none => .error (.msg "resolver fuel exhausted")

/-- Go `localregistry.Resolver.ResolveValue`: look up the value definition,
require a key, resolve the key and attach the value's own name and type,
wrapping key-resolution failures with the value's ID. -/
def ResolveValue (reg : RegistryResources) (value : RegistryValueResourceID) :
    Except GoError RegistryValueRef :=
  match findAL reg.Values value with
  | none =>
      .error (.msg ("the \"" ++ value
        ++ "\" registry value is not defined in the deployment's resources"))
  | some data =>
      if data.Key = "" then
        .error (.msg ("the \"" ++ value ++ "\" registry value does not have a key"))
      else
        match ResolveKey reg data.Key with
        | .error e =>
            .error (.wrap ("failed to resolve the \"" ++ value ++ "\" registry value: ") e)
        | .ok key =>
            .ok { Root := key.Root, Lineage := key.Lineage, ID := value,
                  Name := data.Name, Type_ := data.Type_ }

/-! ## Properties of the resolution walk -/

/-- The number of definition-map keys not yet visited. -/
def unseenCard (keys seen : List ResourceID) : Nat :=
  (keys.toFinset.filter (fun k => k ∉ seen)).card

theorem unseenCard_visit (keys seen : List ResourceID) (next : ResourceID)
    (hmem : next ∈ keys) (hseen : next ∉ seen) :
    unseenCard keys (next :: seen) = unseenCard keys seen - 1 ∧
      1 ≤ unseenCard keys seen := by
  have hstep : keys.toFinset.filter (fun k => k ∉ next :: seen) =
      (keys.toFinset.filter (fun k => k ∉ seen)).erase next := by
    ext y
    simp only [Finset.mem_filter, Finset.mem_erase, List.mem_cons, not_or]
    tauto
  have hin : next ∈ keys.toFinset.filter (fun k => k ∉ seen) :=
    Finset.mem_filter.mpr ⟨List.mem_toFinset.mpr hmem, hseen⟩
  constructor
  · unfold unseenCard
    rw [hstep, Finset.card_erase_of_mem hin]
  · exact Finset.card_pos.mpr ⟨next, hin⟩

/-- The walk never exhausts its fuel when the fuel exceeds the number of
unvisited definition-map keys: every visit that continues the walk marks a
fresh key as seen. -/
theorem chainLoop_ne_none_of_fuel {α ρ : Type} (ops : ChainOps α ρ)
    (keys : List ResourceID)
    (hfind : ∀ x v, ops.find x = some v → x ∈ keys) (id : ResourceID) :
    ∀ (fuel : Nat) (seen : List ResourceID) (lineage : List α) (next : ResourceID),
      unseenCard keys seen < fuel →
      chainLoop ops id fuel seen lineage next ≠ none := by
  intro fuel
  induction fuel with
  | zero => intro seen lineage next h; omega
  | succ f ih =>
      intro seen lineage next h
      simp only [chainLoop]
      by_cases hseen : next ∈ seen
      · simp [hseen]
      · simp only [if_neg hseen]
        cases hf : ops.find next with
        | none =>
            cases hr : ops.rootFn next with
            | ok r => simp
            | error e => by_cases he : e.isNotExistSentinel <;> simp [he]
        | some parent =>
            by_cases hloc : ops.loc parent = ""
            · simp [hloc]
            · simp only [if_neg hloc]
              apply ih
              obtain ⟨heq, hone⟩ :=
                unseenCard_visit keys seen next (hfind _ _ hf) hseen
              omega

/-- The ancestry chain recorded by a successful walk: from resource ID `x`,
the list of definitions followed leaf-to-root until an ID that is not
defined resolves as a known root. -/
inductive ChainFrom {α ρ : Type} (ops : ChainOps α ρ) (root : ρ) :
    ResourceID → List α → Prop
  | root (x : ResourceID) :
      ops.find x = none → ops.rootFn x = .ok root → ChainFrom ops root x []
  | cons (x : ResourceID) (p : α) (rest : List α) :
      ops.find x = some p → ops.loc p ≠ "" →
      ChainFrom ops root (ops.loc p) rest → ChainFrom ops root x (p :: rest)

/-- On a chain that revisits no ID and avoids the visited set, the walk
succeeds and appends exactly the chain's definitions to the lineage. -/
theorem chainLoop_ok_of_chain {α ρ : Type} (ops : ChainOps α ρ)
    (id : ResourceID) (root : ρ) :
    ∀ (l : List α) (next : ResourceID), ChainFrom ops root next l →
      (next :: l.map ops.loc).Nodup →
      ∀ (seen : List ResourceID) (lineage : List α) (fuel : Nat),
        (∀ y ∈ next :: l.map ops.loc, y ∉ seen) →
        l.length < fuel →
        chainLoop ops id fuel seen lineage next = some (.ok (root, lineage ++ l)) := by
  intro l next hchain
  induction hchain with
  | root x hfind hroot =>
      intro _ seen lineage fuel hfresh hfuel
      obtain ⟨f, rfl⟩ : ∃ f, fuel = f + 1 := ⟨fuel - 1, by omega⟩
      have hx : x ∉ seen := hfresh x (by simp)
      simp [chainLoop, hx, hfind, hroot]
  | cons x p rest hfind hloc _ ih =>
      intro hnodup seen lineage fuel hfresh hfuel
      obtain ⟨f, rfl⟩ : ∃ f, fuel = f + 1 := ⟨fuel - 1, by omega⟩
      have hx : x ∉ seen := hfresh x (by simp)
      have htail : (ops.loc p :: rest.map ops.loc).Nodup := by
        have := hnodup.of_cons
        simpa using this
      have hxtail : x ∉ ops.loc p :: rest.map ops.loc := by
        have := (List.nodup_cons.mp hnodup).1
        simpa using this
      have hfresh' : ∀ y ∈ ops.loc p :: rest.map ops.loc, y ∉ x :: seen := by
        intro y hy
        simp only [List.mem_cons, not_or]
        refine ⟨?_, hfresh y (by simpa using Or.inr (by simpa using hy))⟩
        rintro rfl
        exact hxtail hy
      have hrec := ih htail (x :: seen) (lineage ++ [p]) f hfresh'
        (by simpa using Nat.lt_of_succ_lt_succ hfuel)
      simp only [chainLoop, if_neg hx, hfind, if_neg hloc, hrec]
      simp

/-- Along a chain, every ID but the last has a definition. -/
theorem chain_found_ids {α ρ : Type} (ops : ChainOps α ρ) (root : ρ) :
    ∀ (l : List α) (x : ResourceID), ChainFrom ops root x l →
      ∀ y ∈ (x :: l.map ops.loc).dropLast, (ops.find y).isSome := by
  intro l x hchain
  induction hchain with
  | root z _ _ => simp
  | cons z p rest hfind _ _ ih =>
      intro y hy
      have hstep : ((z :: (p :: rest).map ops.loc).dropLast) =
          z :: ((p :: rest).map ops.loc).dropLast := rfl
      rw [hstep] at hy
      rcases List.mem_cons.mp hy with rfl | hy'
      · simp [hfind]
      · exact ih y hy'

/-- A chain without repeated IDs has at most as many definitions as the
definition map has entries. -/
theorem chain_length_le {α ρ : Type} (ops : ChainOps α ρ) (root : ρ)
    (keys : List ResourceID)
    (hfind : ∀ x v, ops.find x = some v → x ∈ keys)
    (l : List α) (x : ResourceID) (hchain : ChainFrom ops root x l)
    (hnodup : (x :: l.map ops.loc).Nodup) : l.length ≤ keys.length := by
  set d := (x :: l.map ops.loc).dropLast with hd
  have hlen : d.length = l.length := by simp [hd]
  have hdn : d.Nodup := hnodup.sublist (List.dropLast_sublist _)
  have hsub : ∀ y ∈ d, y ∈ keys := by
    intro y hy
    obtain ⟨v, hv⟩ := Option.isSome_iff_exists.mp (chain_found_ids ops root l x hchain y hy)
    exact hfind y v hv
  calc l.length = d.length := hlen.symm
    _ = d.toFinset.card := (List.toFinset_card_of_nodup hdn).symm
    _ ≤ keys.toFinset.card := Finset.card_le_card (by
        intro y hy
        exact List.mem_toFinset.mpr (hsub y (List.mem_toFinset.mp hy)))
    _ ≤ keys.length := List.toFinset_card_le keys

/-- Once the walk enters a set of definitions that is closed under parent
locations, it can only end by reporting a cycle (or running out of fuel,
which the resolvers' fuel never does). -/
theorem chainLoop_cycle_of_trap {α ρ : Type} (ops : ChainOps α ρ)
    (id : ResourceID) (S : List ResourceID)
    (hS : ∀ x ∈ S, ∃ p, ops.find x = some p ∧ ops.loc p ≠ "" ∧ ops.loc p ∈ S) :
    ∀ (fuel : Nat) (seen : List ResourceID) (lineage : List α) (next : ResourceID),
      next ∈ S →
      chainLoop ops id fuel seen lineage next = none ∨
      ∃ w, w ∈ S ∧
        chainLoop ops id fuel seen lineage next = some (.error (ops.cycleErr id w)) := by
  intro fuel
  induction fuel with
  | zero => intro seen lineage next _; left; rfl
  | succ f ih =>
      intro seen lineage next hnext
      by_cases hseen : next ∈ seen
      · right
        exact ⟨next, hnext, by simp [chainLoop, hseen]⟩
      · obtain ⟨p, hp, hloc, hlocS⟩ := hS next hnext
        have := ih (next :: seen) (lineage ++ [p]) (ops.loc p) hlocS
        simpa [chainLoop, hseen, hp, hloc] using this

/-- Every error produced by the walk is one of the three errors built from
the requested ID, or an error passed through from root resolution that is
not the not-exist sentinel. -/
theorem chainLoop_error_cases {α ρ : Type} (ops : ChainOps α ρ) (id : ResourceID) :
    ∀ (fuel : Nat) (seen : List ResourceID) (lineage : List α) (next : ResourceID)
      (e : GoError),
      chainLoop ops id fuel seen lineage next = some (.error e) →
      (∃ n, e = ops.cycleErr id n ∨ e = ops.noLocErr id n ∨ e = ops.notDefErr id n) ∨
      (∃ x, ops.rootFn x = .error e ∧ e.isNotExistSentinel = false) := by
  intro fuel
  induction fuel with
  | zero => intro seen lineage next e h; exact absurd h (by simp [chainLoop])
  | succ f ih =>
      intro seen lineage next e h
      by_cases hseen : next ∈ seen
      · simp only [chainLoop, if_pos hseen, Option.some_inj] at h
        exact Or.inl ⟨next, Or.inl (by injection h.symm)⟩
      · simp only [chainLoop, if_neg hseen] at h
        cases hf : ops.find next with
        | some parent =>
            simp only [hf] at h
            by_cases hloc : ops.loc parent = ""
            · rw [if_pos hloc] at h
              simp only [Option.some_inj, Except.error.injEq] at h
              exact Or.inl ⟨next, Or.inr (Or.inl h.symm)⟩
            · rw [if_neg hloc] at h
              exact ih _ _ _ _ h
        | none =>
            simp only [hf] at h
            cases hr : ops.rootFn next with
            | ok r => simp [hr] at h
            | error e' =>
                simp only [hr] at h
                by_cases he : e'.isNotExistSentinel
                · rw [if_pos he] at h
                  simp only [Option.some_inj, Except.error.injEq] at h
                  exact Or.inl ⟨next, Or.inr (Or.inr h.symm)⟩
                · rw [if_neg he] at h
                  simp only [Option.some_inj, Except.error.injEq] at h
                  subst h
                  exact Or.inr ⟨next, hr, by simpa using he⟩

/-- Keys found in an association list are among its keys. -/
theorem findAL_mem_keys {κ ν : Type} [DecidableEq κ] (l : List (κ × ν)) (x : κ)
    (v : ν) (h : findAL l x = some v) : x ∈ l.map (·.1) := by
  unfold findAL at h
  obtain ⟨p, hp⟩ := Option.map_eq_some'.mp h
  have hmem := List.mem_of_find?_eq_some hp.1
  have hkey := List.find?_some hp.1
  simp only [decide_eq_true_eq] at hkey
  subst hkey
  exact List.mem_map_of_mem _ hmem

/-- The fuel `|definitions| + 1` passed by the resolvers is enough for the
walk over any definition map. -/
theorem chainLoop_resolver_fuel {α ρ : Type} (ops : ChainOps α ρ)
    (defs : List (ResourceID × α)) (hops : ops.find = findAL defs)
    (id : ResourceID) (lineage : List α) (next : ResourceID) :
    chainLoop ops id (defs.length + 1) [] lineage next ≠ none := by
  apply chainLoop_ne_none_of_fuel ops (defs.map (·.1))
  · intro x v hx
    rw [hops] at hx
    exact findAL_mem_keys defs x v hx
  · calc unseenCard (defs.map (·.1)) []
        = (defs.map (·.1)).toFinset.card := by
          unfold unseenCard
          congr 1
          exact Finset.filter_true_of_mem (by intro x _; simp)
      _ ≤ (defs.map (·.1)).length := List.toFinset_card_le _
      _ < defs.length + 1 := by simp

/-- Unfolds `ResolveDirectory` to the result of its walk. -/
theorem ResolveDirectory_ok_of_loop (fsys : FileSystemResources)
    (os : KnownFolderOracle) (id : DirectoryResourceID)
    (data : DirectoryResource) (root : KnownFolder) (lineage : List DirectoryResource)
    (hdata : findAL fsys.Directories id = some data) (hloc : data.Location ≠ "")
    (hloop : chainLoop (dirOps fsys.Directories os) id (fsys.Directories.length + 1)
      [] [data] data.Location = some (.ok (root, lineage))) :
    ResolveDirectory fsys os id = .ok { Root := root, Lineage := lineage.reverse } := by
  unfold ResolveDirectory
  rw [hdata]
  simp only [if_neg hloc, hloop]

/-- Unfolds `ResolveDirectory` to the error of its walk. -/
theorem ResolveDirectory_error_of_loop (fsys : FileSystemResources)
    (os : KnownFolderOracle) (id : DirectoryResourceID)
    (data : DirectoryResource) (e : GoError)
    (hdata : findAL fsys.Directories id = some data) (hloc : data.Location ≠ "")
    (hloop : chainLoop (dirOps fsys.Directories os) id (fsys.Directories.length + 1)
      [] [data] data.Location = some (.error e)) :
    ResolveDirectory fsys os id = .error e := by
  unfold ResolveDirectory
  rw [hdata]
  simp only [if_neg hloc, hloop]

/-- Unfolds `ResolveKey` to the result of its walk. -/
theorem ResolveKey_ok_of_loop (reg : RegistryResources) (key : RegistryKeyResourceID)
    (data : RegistryKeyResource) (root : RegistryRoot) (lineage : List RegistryKeyResource)
    (hdata : findAL reg.Keys key = some data) (hloc : data.Location ≠ "")
    (hloop : chainLoop (keyOps reg.Keys) key (reg.Keys.length + 1)
      [] [data] data.Location = some (.ok (root, lineage))) :
    ResolveKey reg key = .ok { Root := root, Lineage := lineage.reverse } := by
  unfold ResolveKey
  rw [hdata]
  simp only [if_neg hloc, hloop]

/-- Unfolds `ResolveKey` to the error of its walk. -/
theorem ResolveKey_error_of_loop (reg : RegistryResources) (key : RegistryKeyResourceID)
    (data : RegistryKeyResource) (e : GoError)
    (hdata : findAL reg.Keys key = some data) (hloc : data.Location ≠ "")
    (hloop : chainLoop (keyOps reg.Keys) key (reg.Keys.length + 1)
      [] [data] data.Location = some (.error e)) :
    ResolveKey reg key = .error e := by
  unfold ResolveKey
  rw [hdata]
  simp only [if_neg hloc, hloop]

/-! ## Example data from the specification -/

/-- The example graph `dirA = {Location: "program-files", Path: "Acme"}`,
`dirB = {Location: "dirA", Path: "Tool"}`. -/
def exampleDirs : FileSystemResources where
  Directories :=
    [("dirA", { Location := "program-files", Path := "Acme" }),
     ("dirB", { Location := "dirA", Path := "Tool" })]
  Files := []

/-- An oracle placing the "program-files" known folder at
`C:\Program Files`. -/
def exampleOracle : KnownFolderOracle := fun id =>
  if id = "program-files" then .ok "C:\\Program Files"
  else .error (.msg "the known folder path is unavailable")

/-- The cyclic example graph `dirX = {Location: "dirY", Path: "a"}`,
`dirY = {Location: "dirX", Path: "b"}`. -/
def exampleCycleDirs : FileSystemResources where
  Directories :=
    [("dirX", { Location := "dirY", Path := "a" }),
     ("dirY", { Location := "dirX", Path := "b" })]
  Files := []

/-- A registry graph whose key "software" is also the ID of a known
registry root. -/
def exampleShadowedRoot : RegistryResources where
  Keys := [("software", { Location := "software", Name := "", Path := "x" })]
  Values := []

/-! ## Claim theorems: resolution -/

/-- The path computation as the specification words it: the root's path
joined with the localization of each lineage segment's path, taken in
order. -/
def specJoinedPath (rootPath : String) : List DirectoryResource → Except GoError String
  | [] => .ok rootPath
  | dir :: rest =>
      (Localize dir.Path).bind (fun localized => specJoinedPath (winJoin rootPath localized) rest)

/-- Go `DirRef.Path` computes exactly the specification's join. -/
theorem PathFn_eq_specJoinedPath (ref : DirRef) :
    ref.PathFn = specJoinedPath ref.Root.Path ref.Lineage := by
  unfold DirRef.PathFn
  generalize ref.Root.Path = rootPath
  induction ref.Lineage generalizing rootPath with
  | nil => rfl
  | cons dir rest ih =>
      simp only [List.foldlM_cons, specJoinedPath]
      cases h : Localize dir.Path with
      | error e => rfl
      | ok localized => exact ih (winJoin rootPath localized)

/-- C1: on an acyclic definition graph, for a directory ID whose
location chain ends at a known folder, `ResolveDirectory` succeeds and its
lineage is the recorded ancestry chain reversed into root-adjacent-to-leaf
order, ending with the requested directory's own definition; `Path` on the
returned reference is the known folder's path joined with each lineage
segment's path in order.  In particular, on the specification's example
graph, `ResolveDirectory("dirB").Path()` is `C:\Program Files\Acme\Tool`. -/
theorem C1_resolveDirectory_acyclic :
    (∀ (fsys : FileSystemResources) (os : KnownFolderOracle)
       (id : DirectoryResourceID) (data : DirectoryResource) (root : KnownFolder)
       (chain : List DirectoryResource),
       findAL fsys.Directories id = some data →
       data.Location ≠ "" →
       ChainFrom (dirOps fsys.Directories os) root data.Location chain →
       (data.Location :: chain.map DirectoryResource.Location).Nodup →
       ResolveDirectory fsys os id =
           .ok { Root := root, Lineage := (data :: chain).reverse } ∧
         ((data :: chain).reverse).getLast? = some data ∧
         DirRef.PathFn { Root := root, Lineage := (data :: chain).reverse } =
           specJoinedPath root.Path ((data :: chain).reverse)) ∧
    (ResolveDirectory exampleDirs exampleOracle "dirB").bind DirRef.PathFn =
      .ok "C:\\Program Files\\Acme\\Tool" := by
  constructor
  · intro fsys os id data root chain hdata hloc hchain hnodup
    have hopsloc : (dirOps fsys.Directories os).loc = DirectoryResource.Location := rfl
    have hnodup' : (data.Location :: chain.map (dirOps fsys.Directories os).loc).Nodup := by
      rw [hopsloc]; exact hnodup
    have hlen : chain.length ≤ fsys.Directories.length := by
      have := chain_length_le (dirOps fsys.Directories os) root
        (fsys.Directories.map (·.1))
        (fun x v hx => findAL_mem_keys fsys.Directories x v hx)
        chain data.Location hchain hnodup'
      simpa using this
    have hloop := chainLoop_ok_of_chain (dirOps fsys.Directories os) id root
      chain data.Location hchain hnodup' [] [data] (fsys.Directories.length + 1)
      (by simp) (by omega)
    refine ⟨?_, ?_, ?_⟩
    · have := ResolveDirectory_ok_of_loop fsys os id data root ([data] ++ chain)
        hdata hloc hloop
      simpa using this
    · simp
    · exact PathFn_eq_specJoinedPath _
  · rfl

/-- Witness for C1 at the specification's example graph. -/
theorem C1_witness :
    ResolveDirectory exampleDirs exampleOracle "dirB" =
        .ok { Root := { ID := "program-files", Path := "C:\\Program Files",
                        Protected := false },
              Lineage := [{ Location := "program-files", Path := "Acme" },
                          { Location := "dirA", Path := "Tool" }] } ∧
      DirRef.PathFn { Root := { ID := "program-files", Path := "C:\\Program Files",
                                Protected := false },
                      Lineage := [{ Location := "program-files", Path := "Acme" },
                                  { Location := "dirA", Path := "Tool" }] } =
        .ok "C:\\Program Files\\Acme\\Tool" := by
  have h := C1_resolveDirectory_acyclic.1 exampleDirs exampleOracle "dirB"
    { Location := "dirA", Path := "Tool" }
    { ID := "program-files", Path := "C:\\Program Files", Protected := false }
    [{ Location := "program-files", Path := "Acme" }]
    rfl (by decide)
    (ChainFrom.cons _ _ _ rfl (by decide)
      (ChainFrom.root _ rfl rfl))
    (by decide)
  exact ⟨h.1, rfl⟩

/-- C2: on a graph with a cycle reachable from the requested ID, the
resolution walk cannot exhaust the fuel `|definitions| + 1` supplied by the
resolvers (bounded traversal), and both `ResolveDirectory` and `ResolveKey`
fail with the cycle error naming the requested ID and the revisited parent;
on the specification's example graph, `ResolveDirectory("dirX")` fails with
the cycle error naming "dirX" and "dirY". -/
theorem C2_resolution_cycle_bounded :
    (∀ (fsys : FileSystemResources) (os : KnownFolderOracle)
       (id : DirectoryResourceID) (lineage : List DirectoryResource)
       (next : DirectoryResourceID),
       chainLoop (dirOps fsys.Directories os) id (fsys.Directories.length + 1)
         [] lineage next ≠ none) ∧
    (∀ (reg : RegistryResources) (key : RegistryKeyResourceID)
       (lineage : List RegistryKeyResource) (next : RegistryKeyResourceID),
       chainLoop (keyOps reg.Keys) key (reg.Keys.length + 1) [] lineage next ≠ none) ∧
    (∀ (fsys : FileSystemResources) (os : KnownFolderOracle)
       (id : DirectoryResourceID) (data : DirectoryResource) (S : List ResourceID),
       findAL fsys.Directories id = some data →
       data.Location ≠ "" →
       data.Location ∈ S →
       (∀ x ∈ S, ∃ p, findAL fsys.Directories x = some p ∧
         p.Location ≠ "" ∧ p.Location ∈ S) →
       ∃ w, w ∈ S ∧ ResolveDirectory fsys os id =
         .error (.msg ("failed to resolve the \"" ++ id ++ "\" directory: the \"" ++ w
           ++ "\" parent directory has a cyclic reference to itself in the deployment's resources"))) ∧
    (∀ (reg : RegistryResources) (key : RegistryKeyResourceID)
       (data : RegistryKeyResource) (S : List ResourceID),
       findAL reg.Keys key = some data →
       data.Location ≠ "" →
       data.Location ∈ S →
       (∀ x ∈ S, ∃ p, findAL reg.Keys x = some p ∧
         p.Location ≠ "" ∧ p.Location ∈ S) →
       ∃ w, w ∈ S ∧ ResolveKey reg key =
         .error (.msg ("failed to resolve the \"" ++ key ++ "\" registry key: the \"" ++ w
           ++ "\" parent key has a cyclic reference to itself in the deployment's registry resources"))) ∧
    ResolveDirectory exampleCycleDirs exampleOracle "dirX" =
      .error (.msg ("failed to resolve the \"dirX\" directory: the \"dirY\""
        ++ " parent directory has a cyclic reference to itself in the deployment's resources")) := by
  refine ⟨?_, ?_, ?_, ?_, ?_⟩
  · intro fsys os id lineage next
    exact chainLoop_resolver_fuel _ fsys.Directories rfl id lineage next
  · intro reg key lineage next
    exact chainLoop_resolver_fuel _ reg.Keys rfl key lineage next
  · intro fsys os id data S hdata hloc hmem hclosed
    rcases chainLoop_cycle_of_trap (dirOps fsys.Directories os) id S hclosed
        (fsys.Directories.length + 1) [] [data] data.Location hmem with hnone | ⟨w, hw, hcyc⟩
    · exact absurd hnone (chainLoop_resolver_fuel _ fsys.Directories rfl id [data] _)
    · exact ⟨w, hw, ResolveDirectory_error_of_loop fsys os id data _ hdata hloc hcyc⟩
  · intro reg key data S hdata hloc hmem hclosed
    rcases chainLoop_cycle_of_trap (keyOps reg.Keys) key S hclosed
        (reg.Keys.length + 1) [] [data] data.Location hmem with hnone | ⟨w, hw, hcyc⟩
    · exact absurd hnone (chainLoop_resolver_fuel _ reg.Keys rfl key [data] _)
    · exact ⟨w, hw, ResolveKey_error_of_loop reg key data _ hdata hloc hcyc⟩
  · rfl

/-- Witness for C2 at the specification's cyclic example graph. -/
theorem C2_witness :
    ∃ w, w ∈ ["dirY", "dirX"] ∧
      ResolveDirectory exampleCycleDirs exampleOracle "dirX" =
        .error (.msg ("failed to resolve the \"dirX\" directory: the \"" ++ w
          ++ "\" parent directory has a cyclic reference to itself in the deployment's resources")) := by
  apply C2_resolution_cycle_bounded.2.2.1 exampleCycleDirs exampleOracle "dirX"
    { Location := "dirY", Path := "a" } ["dirY", "dirX"] rfl (by decide) (by decide)
  intro x hx
  rcases List.mem_cons.mp hx with rfl | hx'
  · exact ⟨{ Location := "dirX", Path := "b" }, rfl, by decide, by decide⟩
  · rcases List.mem_cons.mp hx' with rfl | hx''
    · exact ⟨{ Location := "dirY", Path := "a" }, rfl, by decide, by decide⟩
    · exact absurd hx'' (by simp)

/-- C6 counterexample: the ID "software" is a known registry root, yet
on a graph that also defines a key "software", `ResolveKey("software")`
consults the definition first and here fails with a cycle error instead of
returning the empty-lineage reference anchored at the root. -/
theorem C6_counterexample :
    findAL registryRoots "software" = some (.localMachine, "SOFTWARE") ∧
    ResolveRoot "software" =
      .ok { ID := "software", PredefinedKey := .localMachine, Path := "SOFTWARE" } ∧
    ResolveKey exampleShadowedRoot "software" =
      .error (.msg ("failed to resolve the \"software\" registry key: the \"software\""
        ++ " parent key has a cyclic reference to itself in the deployment's registry resources")) := by
  exact ⟨rfl, rfl, rfl⟩

/-- C6 (amended): the resolvers consult the resource's definition
first; the known-root table applies only to IDs that have no definition.
For an undefined ID, `ResolveDirectory` and `ResolveKey` return the
empty-lineage reference anchored at the known root when one matches and
fail NotDefined otherwise; for a defined ID whose location is empty they
fail NoLocation.  When an ID is both defined and a known root, the
definition takes precedence. -/
theorem C6_amended_definition_precedence :
    (∀ (reg : RegistryResources) (key : RegistryKeyResourceID) (root : RegistryRoot),
       findAL reg.Keys key = none → ResolveRoot key = .ok root →
       ResolveKey reg key = .ok { Root := root, Lineage := [] }) ∧
    (∀ (reg : RegistryResources) (key : RegistryKeyResourceID),
       findAL reg.Keys key = none → ResolveRoot key = .error .notExist →
       ResolveKey reg key = .error (.msg ("the \"" ++ key
         ++ "\" registry key is not defined in the deployment's resources"))) ∧
    (∀ (reg : RegistryResources) (key : RegistryKeyResourceID)
       (data : RegistryKeyResource),
       findAL reg.Keys key = some data → data.Location = "" →
       ResolveKey reg key = .error (.msg ("the \"" ++ key
         ++ "\" registry key does not have a location"))) ∧
    (∀ (fsys : FileSystemResources) (os : KnownFolderOracle)
       (id : DirectoryResourceID) (folder : KnownFolder),
       findAL fsys.Directories id = none → ResolveKnownFolder os id = .ok folder →
       ResolveDirectory fsys os id = .ok { Root := folder, Lineage := [] }) ∧
    (∀ (fsys : FileSystemResources) (os : KnownFolderOracle)
       (id : DirectoryResourceID),
       findAL fsys.Directories id = none → ResolveKnownFolder os id = .error .notExist →
       ResolveDirectory fsys os id = .error (.msg ("the \"" ++ id
         ++ "\" directory is not defined in the deployment's resources"))) ∧
    (∀ (fsys : FileSystemResources) (os : KnownFolderOracle)
       (id : DirectoryResourceID) (data : DirectoryResource),
       findAL fsys.Directories id = some data → data.Location = "" →
       ResolveDirectory fsys os id = .error (.msg ("the \"" ++ id
         ++ "\" directory does not have a location"))) := by
  refine ⟨?_, ?_, ?_, ?_, ?_, ?_⟩
  · intro reg key root hfind hroot
    unfold ResolveKey
    rw [hfind, hroot]
  · intro reg key hfind hroot
    unfold ResolveKey
    rw [hfind, hroot]
    rfl
  · intro reg key data hfind hloc
    unfold ResolveKey
    rw [hfind]
    simp only [if_pos hloc]
  · intro fsys os id folder hfind hfolder
    unfold ResolveDirectory
    rw [hfind, hfolder]
  · intro fsys os id hfind hfolder
    unfold ResolveDirectory
    rw [hfind, hfolder]
    rfl
  · intro fsys os id data hfind hloc
    unfold ResolveDirectory
    rw [hfind]
    simp only [if_pos hloc]

/-- Witness for the amended C6: on an empty registry graph, the ID of the
known "software" root resolves to the empty-lineage reference anchored
there. -/
theorem C6_witness :
    ResolveKey { Keys := [], Values := [] } "software" =
      .ok { Root := { ID := "software", PredefinedKey := .localMachine,
                      Path := "SOFTWARE" },
            Lineage := [] } :=
  C6_amended_definition_precedence.1 { Keys := [], Values := [] } "software"
    { ID := "software", PredefinedKey := .localMachine, Path := "SOFTWARE" } rfl rfl

/-! ## Claim theorems: path computation -/

/-- A successfully localized fragment comes from a valid, localizable
relative path. -/
theorem Localize_ok_valid (s frag : String) (h : Localize s = .ok frag) :
    validPath s ∧ localizableChars s := by
  unfold Localize at h
  by_cases hv : validPath s
  · by_cases hc : localizableChars s
    · exact ⟨hv, hc⟩
    · simp [hv, hc] at h
  · simp [hv] at h

/-- Paths obtained from a root path by joining successfully localized
relative fragments, in order.  Localized fragments are relative and free of
drive letters and ".." elements, so such a path never escapes above the
root. -/
inductive BelowRoot (root : String) : String → Prop
  | refl : BelowRoot root root
  | step (p source frag : String) : BelowRoot root p →
      Localize source = .ok frag → BelowRoot root (winJoin p frag)

/-- Every successful run of the directory path fold validates each segment
and only ever extends the accumulated path by localized fragments. -/
theorem dirPathFold_ok :
    ∀ (l : List DirectoryResource) (root acc p : String), BelowRoot root acc →
      l.foldlM (fun path dir =>
        (Localize dir.Path).map (fun localized => winJoin path localized)) acc = .ok p →
      (∀ d ∈ l, validPath d.Path ∧ localizableChars d.Path) ∧ BelowRoot root p := by
  intro l
  induction l with
  | nil =>
      intro root acc p hacc h
      simp only [List.foldlM_nil] at h
      change Except.ok acc = Except.ok p at h
      injection h with h
      subst h
      exact ⟨by simp, hacc⟩
  | cons dir rest ih =>
      intro root acc p hacc h
      simp only [List.foldlM_cons] at h
      cases hl : Localize dir.Path with
      | error e =>
          rw [hl] at h
          change Except.error e = Except.ok p at h
          exact Except.noConfusion h
      | ok frag =>
          rw [hl] at h
          change rest.foldlM (fun path dir =>
              (Localize dir.Path).map (fun localized => winJoin path localized))
              (winJoin acc frag) = .ok p at h
          obtain ⟨hall, hbelow⟩ := ih root (winJoin acc frag) p
            (BelowRoot.step acc dir.Path frag hacc hl) h
          refine ⟨?_, hbelow⟩
          intro d hd
          rcases List.mem_cons.mp hd with rfl | hd'
          · exact Localize_ok_valid d.Path frag hl
          · exact hall d hd'

/-- Every successful run of the registry path fold validates the
path-determined segments; name-determined segments pass through without
validation. -/
theorem keyPathFold_ok :
    ∀ (l : List RegistryKeyResource) (acc p : String),
      l.foldlM (fun path key =>
        if key.Name ≠ "" then .ok (path ++ "\\" ++ key.Name)
        else if key.Path ≠ "" then (Localize key.Path).map (fun lz => winJoin path lz)
        else .error (.msg "a registry key resource does not specify a name or path"))
        acc = .ok p →
      ∀ k ∈ l, k.Name ≠ "" ∨ (validPath k.Path ∧ localizableChars k.Path) := by
  intro l
  induction l with
  | nil => intro acc p _ k hk; exact absurd hk (by simp)
  | cons key rest ih =>
      intro acc p h k hk
      simp only [List.foldlM_cons] at h
      by_cases hn : key.Name ≠ ""
      · rw [if_pos hn] at h
        rcases List.mem_cons.mp hk with rfl | hk'
        · exact Or.inl hn
        · exact ih _ p h k hk'
      · rw [if_neg hn] at h
        by_cases hp : key.Path ≠ ""
        · rw [if_pos hp] at h
          cases hl : Localize key.Path with
          | error e =>
              rw [hl] at h
              change Except.error e = Except.ok p at h
              exact Except.noConfusion h
          | ok frag =>
              rw [hl] at h
              rcases List.mem_cons.mp hk with rfl | hk'
              · exact Or.inr (Localize_ok_valid k.Path frag hl)
              · exact ih _ p h k hk'
        · rw [if_neg hp] at h
          change Except.error _ = Except.ok p at h
          exact Except.noConfusion h

/-- C7 counterexample: a registry lineage segment whose name is ".."
is not a valid local-relative fragment, yet `RegistryKeyRef.Path` appends
it verbatim and succeeds, producing a path that escapes above the root. -/
theorem C7_counterexample :
    validPath ".." = false ∧
    RegistryKeyRef.PathFn
        { Root := { ID := "software", PredefinedKey := .localMachine,
                    Path := "SOFTWARE" },
          Lineage := [{ Location := "software", Name := "..", Path := "" }] } =
      .ok "HKEY_LOCAL_MACHINE\\SOFTWARE\\.." := by
  exact ⟨rfl, rfl⟩

/-- C7 (amended): `DirRef.Path` and `FileRef.Path` localize every
segment, so a success implies every segment (and the file's own path) is a
valid, localizable relative fragment, and the resulting path is the root's
path extended only by localized fragments; `RegistryKeyRef.Path` validates
only the path-determined segments — a segment given by `Name` is appended
verbatim, without validation. -/
theorem C7_amended_path_validation :
    (∀ (ref : DirRef) (p : String), ref.PathFn = .ok p →
       (∀ d ∈ ref.Lineage, validPath d.Path ∧ localizableChars d.Path) ∧
       BelowRoot ref.Root.Path p) ∧
    (∀ (ref : FileRef) (p : String), ref.PathFn = .ok p →
       (∀ d ∈ ref.Lineage, validPath d.Path ∧ localizableChars d.Path) ∧
       (validPath ref.FilePath ∧ localizableChars ref.FilePath) ∧
       BelowRoot ref.Root.Path p) ∧
    (∀ (ref : RegistryKeyRef) (p : String), ref.PathFn = .ok p →
       ∀ k ∈ ref.Lineage, k.Name ≠ "" ∨ (validPath k.Path ∧ localizableChars k.Path)) := by
  refine ⟨?_, ?_, ?_⟩
  · intro ref p h
    exact dirPathFold_ok ref.Lineage ref.Root.Path ref.Root.Path p BelowRoot.refl h
  · intro ref p h
    unfold FileRef.PathFn at h
    cases hdir : ref.Dir.PathFn with
    | error e =>
        rw [hdir] at h
        change Except.error e = Except.ok p at h
        exact Except.noConfusion h
    | ok dirPath =>
        rw [hdir] at h
        cases hl : Localize ref.FilePath with
        | error e =>
            rw [hl] at h
            change Except.error e = Except.ok p at h
            exact Except.noConfusion h
        | ok frag =>
            rw [hl] at h
            change Except.ok (winJoin dirPath frag) = Except.ok p at h
            injection h with h
            obtain ⟨hall, hbelow⟩ := dirPathFold_ok ref.Lineage ref.Root.Path
              ref.Root.Path dirPath BelowRoot.refl hdir
            subst h
            exact ⟨hall, Localize_ok_valid ref.FilePath frag hl,
              BelowRoot.step dirPath ref.FilePath frag hbelow hl⟩
  · intro ref p h
    exact keyPathFold_ok ref.Lineage ref.Root.AbsolutePath p h

/-- Witness for the amended C7 on a concrete directory reference. -/
theorem C7_witness :
    (∀ d ∈ ([{ Location := "program-files", Path := "Acme" }] : List DirectoryResource),
       validPath d.Path ∧ localizableChars d.Path) ∧
    BelowRoot "C:\\Program Files" "C:\\Program Files\\Acme" :=
  C7_amended_path_validation.1
    { Root := { ID := "program-files", Path := "C:\\Program Files", Protected := false },
      Lineage := [{ Location := "program-files", Path := "Acme" }] }
    "C:\\Program Files\\Acme" rfl

/-! ## Claim theorems: error reporting -/

/-- A string mentions its own final segment. -/
theorem mentions_append_self (a x : String) : mentions x (a ++ x) :=
  ⟨a.data, [], by rw [String.data_append_eq]; simp⟩

/-- Mentions are preserved by appending on the right. -/
theorem mentions_left_extend (s t x : String) (h : mentions x s) :
    mentions x (s ++ t) := by
  obtain ⟨u, v, huv⟩ := h
  refine ⟨u, v ++ t.data, ?_⟩
  rw [String.data_append_eq, ← huv]
  simp

/-- An error message of the form `a ++ x ++ b` mentions `x`. -/
theorem mentions_msg_two (a x b : String) :
    mentions x ((GoError.msg (a ++ x ++ b)).message) := by
  show mentions x (a ++ x ++ b)
  exact mentions_left_extend _ _ _ (mentions_append_self a x)

/-- An error message of the form `a ++ x ++ b ++ n ++ c` mentions `x`. -/
theorem mentions_msg_four (a x b n c : String) :
    mentions x ((GoError.msg (a ++ x ++ b ++ n ++ c)).message) := by
  show mentions x (a ++ x ++ b ++ n ++ c)
  exact mentions_left_extend _ _ _ (mentions_left_extend _ _ _
    (mentions_left_extend _ _ _ (mentions_append_self a x)))

/-- A wrapping error whose own text has the form `a ++ x ++ b` mentions
`x`. -/
theorem mentions_wrap_message (a x b : String) (inner : GoError) :
    mentions x ((GoError.wrap (a ++ x ++ b) inner).message) := by
  show mentions x ((a ++ x ++ b) ++ inner.message)
  exact mentions_left_extend _ _ _ (mentions_left_extend _ _ _
    (mentions_append_self a x))

/-- Go `ResolveRoot` can only fail with the not-exist sentinel: its only
table entry has a supported predefined key. -/
theorem ResolveRoot_error (id : RegistryKeyResourceID) (e : GoError)
    (h : ResolveRoot id = .error e) : e = .notExist := by
  by_cases hid : id = "software"
  · subst hid
    have hok : ResolveRoot "software" =
        .ok { ID := "software", PredefinedKey := .localMachine, Path := "SOFTWARE" } := rfl
    rw [hok] at h
    exact Except.noConfusion h
  · have hf : findAL registryRoots id = none := by
      unfold findAL registryRoots
      simp [List.find?, show ¬ ("software" = id) from fun hh => hid hh.symm]
    unfold ResolveRoot at h
    rw [hf] at h
    injection h with h'
    exact h'.symm

/-- Every failure of `ResolveKnownFolder` is the not-exist sentinel or an
error naming the folder's ID. -/
theorem ResolveKnownFolder_error (os : KnownFolderOracle)
    (id : DirectoryResourceID) (e : GoError)
    (h : ResolveKnownFolder os id = .error e) :
    e = .notExist ∨ mentions id e.message := by
  unfold ResolveKnownFolder at h
  cases hf : findAL knownFolders id with
  | none =>
      rw [hf] at h
      injection h with h'
      exact Or.inl h'.symm
  | some prot =>
      rw [hf] at h
      cases hos : os id with
      | ok path => rw [hos] at h; exact Except.noConfusion h
      | error e' =>
          rw [hos] at h
          injection h with h'
          subst h'
          exact Or.inr (mentions_wrap_message "the \"" id
            "\" known folder could not be resolved: " e')

/-- Every failure of `ResolveKey` names the requested registry key ID. -/
theorem ResolveKey_error_mentions (reg : RegistryResources)
    (key : RegistryKeyResourceID) (e : GoError)
    (h : ResolveKey reg key = .error e) : mentions key e.message := by
  unfold ResolveKey at h
  cases hf : findAL reg.Keys key with
  | none =>
      simp only [hf] at h
      cases hr : ResolveRoot key with
      | ok candidate => simp only [hr] at h; exact Except.noConfusion h
      | error e' =>
          simp only [hr] at h
          by_cases hs : e'.isNotExistSentinel
          · rw [if_pos hs] at h
            injection h with h'
            subst h'
            exact mentions_msg_two "the \"" key
              "\" registry key is not defined in the deployment's resources"
          · rw [if_neg hs] at h
            injection h with h'
            subst h'
            exact absurd (by rw [ResolveRoot_error key e' hr]; rfl) hs
  | some data =>
      simp only [hf] at h
      by_cases hloc : data.Location = ""
      · rw [if_pos hloc] at h
        injection h with h'
        subst h'
        exact mentions_msg_two "the \"" key "\" registry key does not have a location"
      · rw [if_neg hloc] at h
        cases hloop : chainLoop (keyOps reg.Keys) key (reg.Keys.length + 1) [] [data]
            data.Location with
        | none => exact absurd hloop (chainLoop_resolver_fuel _ reg.Keys rfl key [data] _)
        | some r =>
            simp only [hloop] at h
            cases r with
            | ok pr =>
                obtain ⟨root, lin⟩ := pr
                exact Except.noConfusion h
            | error e' =>
                injection h with h'
                subst h'
                rcases chainLoop_error_cases (keyOps reg.Keys) key _ _ _ _ _ hloop with
                  ⟨n, hshape⟩ | ⟨x, hroot, hsent⟩
                · rcases hshape with rfl | rfl | rfl
                  · exact mentions_msg_four "failed to resolve the \"" key
                      "\" registry key: the \"" n
                      "\" parent key has a cyclic reference to itself in the deployment's registry resources"
                  · exact mentions_msg_four "failed to resolve the \"" key
                      "\" registry key: the \"" n "\" parent key does not have a location"
                  · exact mentions_msg_four "failed to resolve the \"" key
                      "\" registry key: the \"" n
                      "\" prent key is not defined in the deployment's resources"
                · rw [ResolveRoot_error x e' hroot] at hsent
                  simp [GoError.isNotExistSentinel] at hsent

/-- Every failure of `ResolveDirectory` names the requested directory ID,
except a failed operating-system lookup of an ancestor known folder, whose
error names that folder's ID instead. -/
theorem ResolveDirectory_error_mentions (fsys : FileSystemResources)
    (os : KnownFolderOracle) (id : DirectoryResourceID) (e : GoError)
    (h : ResolveDirectory fsys os id = .error e) :
    mentions id e.message ∨
      ∃ x, ResolveKnownFolder os x = .error e ∧ mentions x e.message := by
  unfold ResolveDirectory at h
  cases hf : findAL fsys.Directories id with
  | none =>
      simp only [hf] at h
      cases hr : ResolveKnownFolder os id with
      | ok candidate => simp only [hr] at h; exact Except.noConfusion h
      | error e' =>
          simp only [hr] at h
          by_cases hs : e'.isNotExistSentinel
          · rw [if_pos hs] at h
            injection h with h'
            subst h'
            exact Or.inl (mentions_msg_two "the \"" id
              "\" directory is not defined in the deployment's resources")
          · rw [if_neg hs] at h
            injection h with h'
            subst h'
            rcases ResolveKnownFolder_error os id e' hr with rfl | hm
            · exact absurd rfl hs
            · exact Or.inl hm
  | some data =>
      simp only [hf] at h
      by_cases hloc : data.Location = ""
      · rw [if_pos hloc] at h
        injection h with h'
        subst h'
        exact Or.inl (mentions_msg_two "the \"" id "\" directory does not have a location")
      · rw [if_neg hloc] at h
        cases hloop : chainLoop (dirOps fsys.Directories os) id
            (fsys.Directories.length + 1) [] [data] data.Location with
        | none =>
            exact absurd hloop (chainLoop_resolver_fuel _ fsys.Directories rfl id [data] _)
        | some r =>
            simp only [hloop] at h
            cases r with
            | ok pr =>
                obtain ⟨root, lin⟩ := pr
                exact Except.noConfusion h
            | error e' =>
                injection h with h'
                subst h'
                rcases chainLoop_error_cases (dirOps fsys.Directories os) id _ _ _ _ _
                    hloop with ⟨n, hshape⟩ | ⟨x, hroot, hsent⟩
                · rcases hshape with rfl | rfl | rfl
                  · exact Or.inl (mentions_msg_four "failed to resolve the \"" id
                      "\" directory: the \"" n
                      "\" parent directory has a cyclic reference to itself in the deployment's resources")
                  · exact Or.inl (mentions_msg_four "failed to resolve the \"" id
                      "\" directory: the \"" n "\" parent directory does not have a location")
                  · exact Or.inl (mentions_msg_four "failed to resolve the \"" id
                      "\" directory: the \"" n
                      "\" parent directory is not defined in the deployment's resources")
                · rcases ResolveKnownFolder_error os x e' hroot with rfl | hm
                  · simp [GoError.isNotExistSentinel] at hsent
                  · exact Or.inr ⟨x, hroot, hm⟩

/-- Every failure of `ResolveFile` names the requested file ID: its own
errors name it directly and directory-resolution failures are wrapped
with it. -/
theorem ResolveFile_error_mentions (fsys : FileSystemResources)
    (os : KnownFolderOracle) (id : FileResourceID) (e : GoError)
    (h : ResolveFile fsys os id = .error e) : mentions id e.message := by
  unfold ResolveFile at h
  cases hf : findAL fsys.Files id with
  | none =>
      simp only [hf] at h
      injection h with h'
      subst h'
      exact mentions_msg_two "the \"" id
        "\" file is not defined in the deployment's resources"
  | some data =>
      simp only [hf] at h
      by_cases hloc : data.Location = ""
      · rw [if_pos hloc] at h
        injection h with h'
        subst h'
        exact mentions_msg_two "the \"" id "\" file does not have a location"
      · rw [if_neg hloc] at h
        cases hd : ResolveDirectory fsys os data.Location with
        | error e' =>
            simp only [hd] at h
            injection h with h'
            subst h'
            exact mentions_wrap_message "failed to resolve the \"" id "\" file: " e'
        | ok dir =>
            simp only [hd] at h
            exact Except.noConfusion h

/-- Every failure of `ResolveValue` names the requested value ID: its own
errors name it directly and key-resolution failures are wrapped with it. -/
theorem ResolveValue_error_mentions (reg : RegistryResources)
    (value : RegistryValueResourceID) (e : GoError)
    (h : ResolveValue reg value = .error e) : mentions value e.message := by
  unfold ResolveValue at h
  cases hf : findAL reg.Values value with
  | none =>
      simp only [hf] at h
      injection h with h'
      subst h'
      exact mentions_msg_two "the \"" value
        "\" registry value is not defined in the deployment's resources"
  | some data =>
      simp only [hf] at h
      by_cases hkey : data.Key = ""
      · rw [if_pos hkey] at h
        injection h with h'
        subst h'
        exact mentions_msg_two "the \"" value "\" registry value does not have a key"
      · rw [if_neg hkey] at h
        cases hd : ResolveKey reg data.Key with
        | error e' =>
            simp only [hd] at h
            injection h with h'
            subst h'
            exact mentions_wrap_message "failed to resolve the \"" value
              "\" registry value: " e'
        | ok key =>
            simp only [hd] at h
            exact Except.noConfusion h

/-- C8 counterexample: `ResolveRoot` on an unrecognized ID returns the
bare `fs.ErrNotExist` sentinel, whose message "file does not exist" does
not name the requested ID; `ResolveKnownFolder` behaves the same way. -/
theorem C8_counterexample :
    ResolveRoot "bogus" = .error .notExist ∧
    ResolveKnownFolder exampleOracle "bogus" = .error .notExist ∧
    ¬ mentions "bogus" (GoError.notExist.message) := by
  refine ⟨rfl, rfl, by decide⟩

/-- C8 (amended): every resolution failure names the resource ID
involved, with two provisos: `ResolveRoot` and `ResolveKnownFolder` return
the bare `fs.ErrNotExist` sentinel for unrecognized root IDs (which their
callers translate into a NotDefined error naming the ID), and a failed
operating-system lookup of an ancestor known folder names that folder's ID
rather than the requested directory's.  `ResolveFile` and `ResolveValue`
wrap inner resolution errors whole, with their own ID prefixed, giving the
full chain; resolution is a pure function of its inputs and is never
retried. -/
theorem C8_amended_errors_name_ids :
    (∀ (id : RegistryKeyResourceID) (e : GoError), ResolveRoot id = .error e →
       e = .notExist ∨ mentions id e.message) ∧
    (∀ (os : KnownFolderOracle) (id : DirectoryResourceID) (e : GoError),
       ResolveKnownFolder os id = .error e → e = .notExist ∨ mentions id e.message) ∧
    (∀ (reg : RegistryResources) (key : RegistryKeyResourceID) (e : GoError),
       ResolveKey reg key = .error e → mentions key e.message) ∧
    (∀ (fsys : FileSystemResources) (os : KnownFolderOracle)
       (id : DirectoryResourceID) (e : GoError),
       ResolveDirectory fsys os id = .error e →
       mentions id e.message ∨
         ∃ x, ResolveKnownFolder os x = .error e ∧ mentions x e.message) ∧
    (∀ (fsys : FileSystemResources) (os : KnownFolderOracle)
       (id : FileResourceID) (e : GoError),
       ResolveFile fsys os id = .error e → mentions id e.message) ∧
    (∀ (reg : RegistryResources) (value : RegistryValueResourceID) (e : GoError),
       ResolveValue reg value = .error e → mentions value e.message) ∧
    (∀ (fsys : FileSystemResources) (os : KnownFolderOracle)
       (id : FileResourceID) (data : FileResource) (e : GoError),
       findAL fsys.Files id = some data → data.Location ≠ "" →
       ResolveDirectory fsys os data.Location = .error e →
       ResolveFile fsys os id =
         .error (.wrap ("failed to resolve the \"" ++ id ++ "\" file: ") e)) ∧
    (∀ (reg : RegistryResources) (value : RegistryValueResourceID)
       (data : RegistryValueResource) (e : GoError),
       findAL reg.Values value = some data → data.Key ≠ "" →
       ResolveKey reg data.Key = .error e →
       ResolveValue reg value =
         .error (.wrap ("failed to resolve the \"" ++ value ++ "\" registry value: ") e)) := by
  refine ⟨?_, ResolveKnownFolder_error, ResolveKey_error_mentions,
    ResolveDirectory_error_mentions, ResolveFile_error_mentions,
    ResolveValue_error_mentions, ?_, ?_⟩
  · intro id e h
    exact Or.inl (ResolveRoot_error id e h)
  · intro fsys os id data e hfind hloc hdir
    unfold ResolveFile
    simp only [hfind, if_neg hloc, hdir]
  · intro reg value data e hfind hkey hres
    unfold ResolveValue
    simp only [hfind, if_neg hkey, hres]

/-- Witness for the amended C8: the cycle failure on the shadowed-root
example names the requested key ID "software". -/
theorem C8_witness :
    mentions "software"
      ((GoError.msg ("failed to resolve the \"software\" registry key: the \"software\""
        ++ " parent key has a cyclic reference to itself in the deployment's registry resources")).message) :=
  C8_amended_errors_name_ids.2.2.1 exampleShadowedRoot "software"
    (.msg ("failed to resolve the \"software\" registry key: the \"software\""
      ++ " parent key has a cyclic reference to itself in the deployment's registry resources"))
    rfl

/-! ## Typed event system (`core/lbevent`)

The Go `RecordOf[T]` wrapper is generic in the payload type `T`, which is
bound to the `lbevent.Interface` capability contract (Type, Level, Message,
Details, Attrs); every registered payload type's `Type()` method returns a
constant tag.  Payload values are modelled by their capability view
`EventPayload`; JSON text is modelled structurally: a well-formed record is
its envelope `{time, type, data}` and the `encoding/json` round trip of
the concrete field bytes is outside the model.  `time.Time`, `uintptr` and
`slog.Level` are modelled by `Int`; the read-write mutex guarding the Go
registry is outside this sequential model.
-/

/-- Go `lbevent.Type`: the "component:event" tag of an event type. -/
abbrev EventType := String

/-- The capability view of an event payload (`lbevent.Interface`). -/
structure EventPayload where
  type : EventType
  level : Int
  message : String
  details : String
  attrs : List (String × String)
  deriving DecidableEq, Repr

/-- Go `lbevent.RecordOf[T]`: an event record holding a timestamp, a best-
effort program counter, and the event payload.  `time` and `pc` are
unexported in Go. -/
structure RecordOf (α : Type) where
  time : Int
  pc : Int
  Event : α
  deriving DecidableEq, Repr

/-- Go `lbevent.NewRecord(at, pc, event)`: build a record for the given event
and program counter.  The Go function reads the system clock itself; the
`now` argument models the value returned by that internal `time.Now()`
call, while `atArg` models the function's `at` parameter. -/
def NewRecord {α : Type} (now atArg pc : Int) (event : α) : RecordOf α :=
  { time := now, pc := pc, Event := event }

/-- Go `RecordOf.Time`: the time of the event. -/
def RecordOf.Time {α : Type} (r : RecordOf α) : Int := r.time

/-- Go `RecordOf.Type`: the type of the event, delegated to the payload. -/
def RecordOf.TypeFn {α : Type} (typeOf : α → EventType) (r : RecordOf α) : EventType :=
  typeOf r.Event

/-- The `recordOf[T]` JSON envelope `{"time": ..., "type": ..., "data": ...}`. -/
structure WireOf (α : Type) where
  time : Int
  type : EventType
  data : α
  deriving DecidableEq, Repr

/-- JSON text fed to an unmarshaler: either malformed bytes or a
well-formed record envelope. -/
inductive JsonTextOf (α : Type) where
  | malformed : JsonTextOf α
  | record (w : WireOf α) : JsonTextOf α
  deriving DecidableEq, Repr

/-- Go `RecordOf.UnmarshalJSON`, invoked on a zero receiver as
`lbevent.UnmarshalRecord[T]` does: parse the envelope (failing on
malformed input), reject an envelope whose tag differs from the receiver
type's own tag (`r.Type()` of the zero value), then fill the record from
the envelope's time and data, dropping the program counter. -/
def UnmarshalRecordT {α : Type} (typeOf : α → EventType) (zero : α)
    (b : JsonTextOf α) : Except GoError (RecordOf α) :=
  match b with
  | .malformed =>
      .error (.wrap ("failed to unmarshal event record of type \"" ++ typeOf zero
        ++ "\": ") (.msg "invalid JSON input"))
  | .record aux =>
      if aux.type ≠ typeOf zero then
        .error (.msg ("attempted to unmarshal event record of type \"" ++ aux.type
          ++ "\" into a structure for type \"" ++ typeOf zero ++ "\""))
      else .ok { time := aux.time, pc := 0, Event := aux.data }

/-- Go `lbevent.RecordUnmarshaler`, at the modelled payload universe. -/
abbrev RecordUnmarshaler :=
  JsonTextOf EventPayload → Except GoError (RecordOf EventPayload)

/-- Go `lbevent.Registration`. -/
structure Registration where
  Type_ : EventType
  Unmarshaler : RecordUnmarshaler

/-- Go `lbevent.Registry`: ordered type list, ID assignments, decoders, and
the next ID to hand out. -/
structure Registry where
  types : List EventType
  ids : List (EventType × Nat)
  unmarshalers : List (EventType × RecordUnmarshaler)
  next : Nat

/-- Go `lbevent.NewRegistry(start)`. -/
def NewRegistry (start : Nat) : Registry :=
  { types := [], ids := [], unmarshalers := [], next := start }

/-- One iteration of `Registry.Add`: a type tag seen for the first time is
assigned the next ID and appended to the type list; the decoder is set
unconditionally. -/
def Registry.addOne (r : Registry) (event : Registration) : Registry :=
  let r' :=
    if (findAL r.ids event.Type_).isSome then r
    else { r with ids := setAL r.ids event.Type_ r.next,
                  types := r.types ++ [event.Type_],
                  next := r.next + 1 }
  { r' with unmarshalers := setAL r'.unmarshalers event.Type_ event.Unmarshaler }

/-- Go `Registry.Add(events...)`: add the registrations in order. -/
def Registry.Add (r : Registry) (events : List Registration) : Registry :=
  events.foldl Registry.addOne r

/-- Go `Registry.EventID(event)`: the assigned ID, if registered. -/
def Registry.EventID (r : Registry) (event : EventType) : Option Nat :=
  findAL r.ids event

/-- Go `Registry.Types()`: the registered types in first-registration order. -/
def Registry.TypesFn (r : Registry) : List EventType := r.types

/-- Go `Registry.UnmarshalRecord(b)`: read the "type" field of the envelope
header, dispatch to the registered decoder, failing when the type is not
recognized.  The "umarshaled" spelling reproduces the source text. -/
def Registry.UnmarshalRecord (r : Registry) (b : JsonTextOf EventPayload) :
    Except GoError (RecordOf EventPayload) :=
  match b with
  | .malformed =>
      .error (.wrap "failed to parse event record header: " (.msg "invalid JSON input"))
  | .record w =>
      match findAL r.unmarshalers w.type with
      | none =>
          .error (.msg ("the event type \"" ++ w.type
            ++ "\" could not be umarshaled because it is not recognized"))
      | some unmarshaler => unmarshaler b

/-- Go `Registry.UnmarshalRecord`, instrumented to also return the type tags
of the decoders it invoked; its result component agrees with
`Registry.UnmarshalRecord`. -/
def Registry.UnmarshalRecordCalls (r : Registry) (b : JsonTextOf EventPayload) :
    Except GoError (RecordOf EventPayload) × List EventType :=
  match b with
  | .malformed =>
      (.error (.wrap "failed to parse event record header: " (.msg "invalid JSON input")), [])
  | .record w =>
      match findAL r.unmarshalers w.type with
      | none =>
          (.error (.msg ("the event type \"" ++ w.type
            ++ "\" could not be umarshaled because it is not recognized")), [])
      | some unmarshaler => (unmarshaler b, [w.type])

/-- The instrumented dispatch computes the same result as the plain one. -/
theorem UnmarshalRecordCalls_fst (r : Registry) (b : JsonTextOf EventPayload) :
    (r.UnmarshalRecordCalls b).1 = r.UnmarshalRecord b := by
  cases b with
  | malformed => rfl
  | record w =>
      cases h : findAL r.unmarshalers w.type <;>
        simp [Registry.UnmarshalRecordCalls, Registry.UnmarshalRecord, h]

/-- The zero value of the payload type registered for tag `τ`: every
registered event struct's `Type()` method returns its constant tag. -/
def zeroPayload (τ : EventType) : EventPayload :=
  { type := τ, level := 0, message := "", details := "", attrs := [] }

/-- Go `lbevent.UnmarshalRecord[T]` for the payload type whose constant tag
is `τ`. -/
def unmarshalerFor (τ : EventType) : RecordUnmarshaler :=
  UnmarshalRecordT EventPayload.type (zeroPayload τ)

/-! ### Registered event types (`core/lbdeployevent`) -/

/-- Go `deployment.flow` event types. -/
def FlowStartedType : EventType := "deployment.flow:started"
def FlowStoppedType : EventType := "deployment.flow:stopped"
def FlowConditionType : EventType := "deployment.flow:condition"
def FlowLockNotAcquiredType : EventType := "deployment.flow:lock-not-acquired"
def FlowAlreadyRunningType : EventType := "deployment.flow:already-running"

/-- Go `deployment.command` event types. -/
def CommandSkippedType : EventType := "deployment.command:skipped"
def CommandStartedType : EventType := "deployment.command:started"
def CommandStoppedType : EventType := "deployment.command:stopped"

/-- Go `deployment.extraction` event types. -/
def ExtractionStartedType : EventType := "deployment.extraction:started"
def ExtractionStoppedType : EventType := "deployment.extraction:stopped"

/-- Go `deployment.file` event types. -/
def FileExtractionType : EventType := "deployment.file:extraction"
def FileVerificationType : EventType := "deployment.file:verification"
def FileCopyType : EventType := "deployment.file:copy"
def FileDeleteType : EventType := "deployment.file:delete"

/-- Modelled from the spec: the action and download event types are
registered by `lbdeployevent.Registrations` but their defining files are
not among the sources; their tags follow the "component:name" convention
the specification gives. -/
def ActionStartedType : EventType := "deployment.action:started"
def ActionStoppedType : EventType := "deployment.action:stopped"
def DownloadStartedType : EventType := "deployment.download:started"
def DownloadStoppedType : EventType := "deployment.download:stopped"
def DownloadResetType : EventType := "deployment.download:reset"

/-- Go `lbdeployevent.Registrations`: the ordered registration list; each
entry pairs an event type's tag with `lbevent.UnmarshalRecord` for its
payload type (whose constant tag is that same tag). -/
def Registrations : List Registration :=
  [⟨FlowStartedType, unmarshalerFor FlowStartedType⟩,
   ⟨FlowStoppedType, unmarshalerFor FlowStoppedType⟩,
   ⟨FlowConditionType, unmarshalerFor FlowConditionType⟩,
   ⟨FlowLockNotAcquiredType, unmarshalerFor FlowLockNotAcquiredType⟩,
   ⟨FlowAlreadyRunningType, unmarshalerFor FlowAlreadyRunningType⟩,
   ⟨ActionStartedType, unmarshalerFor ActionStartedType⟩,
   ⟨ActionStoppedType, unmarshalerFor ActionStoppedType⟩,
   ⟨CommandSkippedType, unmarshalerFor CommandSkippedType⟩,
   ⟨CommandStartedType, unmarshalerFor CommandStartedType⟩,
   ⟨CommandStoppedType, unmarshalerFor CommandStoppedType⟩,
   ⟨DownloadStartedType, unmarshalerFor DownloadStartedType⟩,
   ⟨DownloadStoppedType, unmarshalerFor DownloadStoppedType⟩,
   ⟨DownloadResetType, unmarshalerFor DownloadResetType⟩,
   ⟨ExtractionStartedType, unmarshalerFor ExtractionStartedType⟩,
   ⟨ExtractionStoppedType, unmarshalerFor ExtractionStoppedType⟩,
   ⟨FileExtractionType, unmarshalerFor FileExtractionType⟩,
   ⟨FileVerificationType, unmarshalerFor FileVerificationType⟩,
   ⟨FileCopyType, unmarshalerFor FileCopyType⟩,
   ⟨FileDeleteType, unmarshalerFor FileDeleteType⟩]

/-- The registered type tags in registration order. -/
def registrationTags : List EventType :=
  [FlowStartedType, FlowStoppedType, FlowConditionType, FlowLockNotAcquiredType,
   FlowAlreadyRunningType, ActionStartedType, ActionStoppedType, CommandSkippedType,
   CommandStartedType, CommandStoppedType, DownloadStartedType, DownloadStoppedType,
   DownloadResetType, ExtractionStartedType, ExtractionStoppedType, FileExtractionType,
   FileVerificationType, FileCopyType, FileDeleteType]

theorem registrationTags_eq : Registrations.map Registration.Type_ = registrationTags := rfl

/-- Modelled from the spec: the starting event ID handed to `NewRegistry`
by the command-line program; the specification says IDs are "assigned
sequentially from a caller-chosen base (e.g., 1000)" and the file defining
the constant is not among the sources. -/
def startingEventID : Nat := 1000

/-- The registry as the deployment command builds it:
`lbevent.NewRegistry(startingEventID)` followed by
`Add(lbdeployevent.Registrations...)`. -/
def deploymentRegistry : Registry :=
  (NewRegistry startingEventID).Add Registrations

/-- Each registered tag dispatches to its own registered unmarshaler in
the deployment registry. -/
theorem deploymentRegistry_unmarshaler (τ : EventType) (h : τ ∈ registrationTags) :
    findAL deploymentRegistry.unmarshalers τ = some (unmarshalerFor τ) := by
  fin_cases h <;> rfl

/-! ### Payload field serialization (`encoding/json` on the registered payload structs)

Many of the registered payload structs carry an `Err error` field
(`FlowStopped`, `FlowCondition`, `FlowLockNotAcquired`, `FileExtraction`,
`FileCopy`, `FileDelete`, `ExtractionStopped`, `CommandStopped`).
`encoding/json` marshals a nil error field as `null` and a non-nil one as
the JSON object of the concrete error value's exported fields — `{}` for
errors made by `errors.New` or `fmt.Errorf`, losing the message — and
`json.Unmarshal` fails when asked to decode such an object back into the
non-empty `error` interface.  The definitions below refine the structural
envelope model with exactly this behaviour of the data leg; the remaining
exported fields round-trip through `encoding/json` faithfully and are
carried as an opaque field list.
-/

/-- A registered payload value as `encoding/json` sees it: the constant
tag its Go type's `Type()` method returns, whether the struct declares an
`Err error` field, that field's value (`none` is a nil error), and the
remaining exported fields, which serialize faithfully. -/
structure GoPayload where
  tag : EventType
  errField : Bool
  Err : Option String
  fields : List (String × String)
  deriving DecidableEq, Repr

/-- The JSON encoding of an `error`-interface field: nil marshals to
`null`; a non-nil error marshals to the object of its exported fields,
`{}` for the standard error types, losing the message. -/
inductive ErrJson where
  | null : ErrJson
  | object : ErrJson
  deriving DecidableEq, Repr

/-- The JSON value of the envelope's "data" leg for a registered payload:
the encoded error field, when the struct has one, and the remaining
fields. -/
structure GoPayloadWire where
  errSlot : Option ErrJson
  fields : List (String × String)
  deriving DecidableEq, Repr

/-- `json.Marshal` on a registered payload struct. -/
def marshalPayload (p : GoPayload) : GoPayloadWire :=
  { errSlot :=
      if p.errField then
        some (match p.Err with | none => .null | some _ => .object)
      else none,
    fields := p.fields }

/-- `json.Unmarshal` of a "data" JSON value into the payload struct whose
error-field presence is `errField`: a `null` error slot (or an absent one)
decodes to a nil error, but an error object cannot be decoded back into
the `error` interface and fails; a struct without an error field ignores
an unknown error slot, as `encoding/json` ignores unknown fields. -/
def unmarshalPayload (tag : EventType) (errField : Bool) (w : GoPayloadWire) :
    Except GoError GoPayload :=
  if errField then
    match w.errSlot with
    | some .object =>
        .error (.msg "json: cannot unmarshal object into Go struct field data.Err of type error")
    | _ => .ok { tag := tag, errField := errField, Err := none, fields := w.fields }
  else .ok { tag := tag, errField := errField, Err := none, fields := w.fields }

/-- Go `RecordOf.MarshalJSON` with the payload's field serialization made
explicit: `json.Marshal` of the envelope
`{Time: r.time, Type: r.Type(), Data: r.Event}`, whose data leg
serializes through `marshalPayload`.  `r.Type()` is the payload's
constant tag. -/
def MarshalJSONGo (r : RecordOf GoPayload) : JsonTextOf GoPayloadWire :=
  .record { time := r.time, type := r.Event.tag, data := marshalPayload r.Event }

/-- Go `lbevent.UnmarshalRecord[T]` with the payload's field serialization
made explicit, for the payload type whose constant tag is `τ` and whose
error-field presence is `errField`: `json.Unmarshal(b, &aux)` decodes the
whole envelope — including the data leg into `T`, which fails on an error
object — before the envelope's tag is compared with the receiver type's
tag. -/
def UnmarshalRecordGo (τ : EventType) (errField : Bool)
    (b : JsonTextOf GoPayloadWire) : Except GoError (RecordOf GoPayload) :=
  match b with
  | .malformed =>
      .error (.wrap ("failed to unmarshal event record of type \"" ++ τ ++ "\": ")
        (.msg "invalid JSON input"))
  | .record aux =>
      match unmarshalPayload τ errField aux.data with
      | .error e =>
          .error (.wrap ("failed to unmarshal event record of type \"" ++ τ ++ "\": ") e)
      | .ok data =>
          if aux.type ≠ τ then
            .error (.msg ("attempted to unmarshal event record of type \"" ++ aux.type
              ++ "\" into a structure for type \"" ++ τ ++ "\""))
          else .ok { time := aux.time, pc := 0, Event := data }

/-! ## Claim theorems: event system -/

/-- A flow-stopped payload carrying a non-nil error, as after a failed
flow: the `FlowStopped` struct has an `Err error` field. -/
def flowStoppedWithErr : GoPayload where
  tag := "deployment.flow:stopped"
  errField := true
  Err := some "extraction failed"
  fields := [("Deployment", "dep"), ("Flow", "install")]

/-- A record of the failed flow-stopped event. -/
def flowStoppedRecordWithErr : RecordOf GoPayload where
  time := 5
  pc := 3
  Event := flowStoppedWithErr

/-- C3 counterexample: a flow-stopped record whose payload carries a
non-nil `Err` does not round-trip: `json.Marshal` encodes the error as an
empty object, and the registered unmarshaler for "deployment.flow:stopped"
(`lbevent.UnmarshalRecord[FlowStopped]`) then fails to decode it back into
the `error` interface, returning a decode error instead of an equivalent
record. -/
theorem C3_counterexample :
    MarshalJSONGo flowStoppedRecordWithErr =
      .record { time := 5, type := "deployment.flow:stopped",
                data := { errSlot := some .object,
                          fields := [("Deployment", "dep"), ("Flow", "install")] } } ∧
    UnmarshalRecordGo "deployment.flow:stopped" true
        (MarshalJSONGo flowStoppedRecordWithErr) =
      .error (.wrap "failed to unmarshal event record of type \"deployment.flow:stopped\": "
        (.msg "json: cannot unmarshal object into Go struct field data.Err of type error")) ∧
    ¬ (UnmarshalRecordGo "deployment.flow:stopped" true
        (MarshalJSONGo flowStoppedRecordWithErr) =
      .ok { time := flowStoppedRecordWithErr.time, pc := 0,
            Event := flowStoppedRecordWithErr.Event }) := by
  have h2 : UnmarshalRecordGo "deployment.flow:stopped" true
      (MarshalJSONGo flowStoppedRecordWithErr) =
      .error (.wrap "failed to unmarshal event record of type \"deployment.flow:stopped\": "
        (.msg "json: cannot unmarshal object into Go struct field data.Err of type error")) := by
    rfl
  exact ⟨rfl, h2, fun h => Except.noConfusion (h2.symm.trans h)⟩

/-- C3 (amended): for every registered event type, marshaling a record
whose payload's error-typed field is nil (or whose payload type has no
error field) and unmarshaling it with that type's unmarshaler yields an
equivalent record — same type tag, same timestamp and the same payload
field values, with the program counter, which is not part of the
envelope, zeroed.  Records carrying a non-nil error field do not
round-trip: their error marshals as an empty object that `json.Unmarshal`
cannot decode back into the `error` interface. -/
theorem C3_roundtrip_nil_error (τ : EventType) (r : RecordOf GoPayload)
    (_hmem : τ ∈ registrationTags) (htag : r.Event.tag = τ)
    (herr : r.Event.Err = none) :
    UnmarshalRecordGo τ r.Event.errField (MarshalJSONGo r) =
      .ok { time := r.time, pc := 0, Event := r.Event } := by
  obtain ⟨time, pc, event⟩ := r
  obtain ⟨tag, errField, errv, fields⟩ := event
  simp only at htag herr
  subst htag
  subst herr
  cases errField <;>
    simp [MarshalJSONGo, UnmarshalRecordGo, marshalPayload, unmarshalPayload]

/-- A flow-stopped payload whose error field is nil, as after a
successful flow. -/
def flowStoppedNilErr : GoPayload where
  tag := "deployment.flow:stopped"
  errField := true
  Err := none
  fields := [("Deployment", "dep"), ("Flow", "install")]

/-- A record of the successful flow-stopped event. -/
def flowStoppedRecordNilErr : RecordOf GoPayload where
  time := 9
  pc := 2
  Event := flowStoppedNilErr

/-- Witness for the amended C3: a flow-stopped record with a nil error
field round-trips through the flow-stopped unmarshaler. -/
theorem C3_witness :
    UnmarshalRecordGo "deployment.flow:stopped" flowStoppedRecordNilErr.Event.errField
        (MarshalJSONGo flowStoppedRecordNilErr) =
      .ok { time := flowStoppedRecordNilErr.time, pc := 0,
            Event := flowStoppedRecordNilErr.Event } :=
  C3_roundtrip_nil_error "deployment.flow:stopped" flowStoppedRecordNilErr
    (by decide) rfl rfl

theorem addOne_ids_self (r : Registry) (reg : Registration) :
    (findAL (r.addOne reg).ids reg.Type_).isSome := by
  unfold Registry.addOne
  by_cases h : (findAL r.ids reg.Type_).isSome
  · simp [h]
  · simp [h, findAL_setAL_self]

theorem addOne_of_mem (r : Registry) (reg : Registration)
    (h : (findAL r.ids reg.Type_).isSome) :
    (r.addOne reg).ids = r.ids ∧ (r.addOne reg).types = r.types ∧
      (r.addOne reg).unmarshalers = setAL r.unmarshalers reg.Type_ reg.Unmarshaler := by
  unfold Registry.addOne
  simp [h]

/-- C4: re-registering a type tag with a different decoder leaves its
assigned ID and the registered type list unchanged, while subsequent
`UnmarshalRecord` calls on records tagged with it dispatch to the second
decoder. -/
theorem C4_readd_keeps_id_swaps_decoder (r : Registry) (t : EventType)
    (d1 d2 : RecordUnmarshaler) (tm : Int) (dat : EventPayload) :
    ((r.Add [⟨t, d1⟩]).Add [⟨t, d2⟩]).EventID t = (r.Add [⟨t, d1⟩]).EventID t ∧
    ((r.Add [⟨t, d1⟩]).Add [⟨t, d2⟩]).TypesFn = (r.Add [⟨t, d1⟩]).TypesFn ∧
    ((r.Add [⟨t, d1⟩]).Add [⟨t, d2⟩]).UnmarshalRecord
        (.record { time := tm, type := t, data := dat }) =
      d2 (.record { time := tm, type := t, data := dat }) := by
  have h1 : r.Add [⟨t, d1⟩] = r.addOne ⟨t, d1⟩ := rfl
  have h2 : (r.Add [⟨t, d1⟩]).Add [⟨t, d2⟩] = (r.addOne ⟨t, d1⟩).addOne ⟨t, d2⟩ := rfl
  rw [h2, h1]
  have hmem := addOne_ids_self r ⟨t, d1⟩
  obtain ⟨hids, htypes, hunm⟩ := addOne_of_mem (r.addOne ⟨t, d1⟩) ⟨t, d2⟩ hmem
  refine ⟨?_, ?_, ?_⟩
  · unfold Registry.EventID
    rw [hids]
  · unfold Registry.TypesFn
    rw [htypes]
  · unfold Registry.UnmarshalRecord
    simp only [hunm, findAL_setAL_self]

/-- C5: a JSON envelope whose type tag has no registered decoder makes
`UnmarshalRecord` fail with the unrecognized-type error and invoke no
decoder (the instrumented dispatch reports an empty call list); and every
registered per-type unmarshaler rejects a well-formed envelope whose tag
differs from its own type with the mismatch error. -/
theorem C5_unrecognized_and_mismatch :
    (∀ (r : Registry) (w : WireOf EventPayload),
       findAL r.unmarshalers w.type = none →
       r.UnmarshalRecord (.record w) =
           .error (.msg ("the event type \"" ++ w.type
             ++ "\" could not be umarshaled because it is not recognized")) ∧
         r.UnmarshalRecordCalls (.record w) =
           (.error (.msg ("the event type \"" ++ w.type
             ++ "\" could not be umarshaled because it is not recognized")), [])) ∧
    (∀ (τ : EventType) (w : WireOf EventPayload), τ ∈ registrationTags →
       w.type ≠ τ →
       unmarshalerFor τ (.record w) =
         .error (.msg ("attempted to unmarshal event record of type \"" ++ w.type
           ++ "\" into a structure for type \"" ++ τ ++ "\""))) := by
  constructor
  · intro r w h
    constructor
    · unfold Registry.UnmarshalRecord
      simp [h]
    · unfold Registry.UnmarshalRecordCalls
      simp [h]
  · intro τ w _ hne
    unfold unmarshalerFor UnmarshalRecordT
    simp [zeroPayload, hne]

/-- Witness for C5: an unregistered tag is rejected by the deployment
registry without invoking any decoder, and the flow-started unmarshaler
rejects a flow-stopped envelope. -/
theorem C5_witness :
    (Registry.UnmarshalRecord deploymentRegistry
        (.record { time := 3, type := "custom:unknown",
                   data := zeroPayload "custom:unknown" }) =
         .error (.msg ("the event type \"" ++ "custom:unknown"
           ++ "\" could not be umarshaled because it is not recognized")) ∧
       Registry.UnmarshalRecordCalls deploymentRegistry
         (.record { time := 3, type := "custom:unknown",
                    data := zeroPayload "custom:unknown" }) =
         (.error (.msg ("the event type \"" ++ "custom:unknown"
           ++ "\" could not be umarshaled because it is not recognized")), [])) ∧
    unmarshalerFor "deployment.flow:started"
        (.record { time := 3, type := "deployment.flow:stopped",
                   data := zeroPayload "deployment.flow:stopped" }) =
      .error (.msg ("attempted to unmarshal event record of type \""
        ++ "deployment.flow:stopped" ++ "\" into a structure for type \""
        ++ "deployment.flow:started" ++ "\"")) := by
  constructor
  · exact C5_unrecognized_and_mismatch.1 deploymentRegistry
      { time := 3, type := "custom:unknown", data := zeroPayload "custom:unknown" } rfl
  · exact C5_unrecognized_and_mismatch.2 "deployment.flow:started"
      { time := 3, type := "deployment.flow:stopped",
        data := zeroPayload "deployment.flow:stopped" } (by decide) (by decide)

/-! ## Engine state (`platform/windows/lbengine`) -/

/-- Go `lbdeploy.FlowID`. -/
abbrev FlowID := String

/-- Go `lbengine.engineState`, restricted to its active-flow set; the
package caches and the lock manager of the Go struct are separate fields
not involved in flow admission.  The `idset.SetOf` flow set is modelled as
a list of IDs with membership as the set predicate. -/
structure engineState where
  activeFlows : List FlowID
  deriving DecidableEq, Repr

/-- Modelled from the spec: `Admit(flowID)` — "atomically test-and-insert
into activeFlows; fails AlreadyRunning if already present (detects
reentrant/cyclic flow invocation)".  The function's body is not among the
sources; only `engineState` and its flow set are.  Returns the new state
and whether the flow was admitted (false standing for the AlreadyRunning
failure). -/
def Admit (s : engineState) (flow : FlowID) : engineState × Bool :=
  if flow ∈ s.activeFlows then (s, false)
  else ({ activeFlows := flow :: s.activeFlows }, true)

/-- Modelled from the spec: `Release(flowID)` — "idempotent removal" from
the active-flow set. -/
def Release (s : engineState) (flow : FlowID) : engineState :=
  { activeFlows := s.activeFlows.filter (fun f => f ≠ flow) }

/-- C9: `Admit` is an atomic test-and-insert, so the two interleavings
of two concurrent `Admit` calls for one flow ID are its two sequential
orders, and in either order the first call succeeds and the second fails
AlreadyRunning — exactly one succeeds; `Release` is idempotent; and after
a `Release`, a later `Admit` for the same flow ID succeeds again. -/
theorem C9_admission_exclusion :
    (∀ (s : engineState) (flow : FlowID), flow ∉ s.activeFlows →
       (Admit s flow).2 = true ∧ (Admit (Admit s flow).1 flow).2 = false) ∧
    (∀ (s : engineState) (flow : FlowID),
       Release (Release s flow) flow = Release s flow) ∧
    (∀ (s : engineState) (flow : FlowID),
       (Admit (Release s flow) flow).2 = true) := by
  refine ⟨?_, ?_, ?_⟩
  · intro s flow h
    constructor
    · simp [Admit, h]
    · simp [Admit, h]
  · intro s flow
    simp [Release, List.filter_filter]
  · intro s flow
    simp [Admit, Release, List.mem_filter]

/-- Witness for C9: on an idle engine, the first admission of a flow
succeeds and an immediate duplicate admission fails. -/
theorem C9_witness :
    (Admit { activeFlows := [] } "install").2 = true ∧
    (Admit (Admit { activeFlows := [] } "install").1 "install").2 = false :=
  C9_admission_exclusion.1 { activeFlows := [] } "install" (by simp)

/-- C10: `NewRecord(at, pc, event)` stores the system clock reading
taken inside the function as the record's timestamp; the `at` argument
does not influence the returned record at all, so `Time()` is independent
of it. -/
theorem C10_newRecord_uses_clock_not_at (now a1 a2 pc : Int) (event : EventPayload) :
    (NewRecord now a1 pc event).Time = now ∧
    NewRecord now a1 pc event = NewRecord now a2 pc event :=
  ⟨rfl, rfl⟩

end LeafBridge
